import Mathlib

/-!
Shallow embedding of the DSP-Alliance voting backend core
(src/redis.rs, src/messages/votes.rs, src/storage.rs).

The redis key-value store is modelled as a function from byte keys
(lists of naturals, each byte < 256 in real states) to optional typed
values; each operation of `impl Redis` becomes a Lean function on
that store.  Fallible operations return `Except RErr _` together with
the (possibly partially mutated) store, mirroring the fact that a
redis `?` early-return keeps all writes already issued.  Machine
integers are naturals: fips are u32 (keys truncate them mod 2^32 via
the 4-byte big-endian encoding, as in the Rust source), storage
totals are u128 and reduce mod 2^128 at each write, timestamps are
u64.  The external storage-power oracle (`fetch_storage_amount`) is a
parameter `Oracle`; the process-start allow-list `authorized_voters`
(declared but not defined under src/) is a parameter `boot`.
-/

namespace DSPVote

/-- Network enumeration from src/storage.rs; `as u8` is 0 / 1. -/
inductive Network where
  | mainnet
  | testnet
deriving DecidableEq, Repr

/-- `*ntw as u8` in the Rust source. -/
def Network.toByte : Network → Nat
  | .mainnet => 0
  | .testnet => 1

/-- Vote options from src/messages/votes.rs. -/
inductive VoteOption where
  | yay
  | nay
  | abstain
deriving DecidableEq, Repr

instance : BEq VoteOption := ⟨fun a b => decide (a = b)⟩

/-- Ethereum address (20 bytes, H160), modelled by its numeric value. -/
abbrev Addr := Nat

/-- `struct Vote` from src/messages/votes.rs. -/
structure Vote where
  choice : VoteOption
  address : Addr
  fip : Nat
deriving DecidableEq, Repr

/-- `impl PartialEq for Vote`: equality on `(address, fip)` only,
the choice is ignored. -/
def voteEq (a b : Vote) : Bool :=
  a.address == b.address && a.fip == b.fip

/-- Big-endian byte encoding with a fixed width: `natToBeBytes k v`
is the `k`-byte big-endian encoding of `v mod 256^k` (this is what
`to_be_bytes` on a fixed-width Rust integer produces). -/
def natToBeBytes : Nat → Nat → List Nat
  | 0, _ => []
  | k + 1, v => natToBeBytes k (v / 256) ++ [v % 256]

/-- Big-endian byte decoding (`from_be_bytes`). -/
def beBytesToNat (l : List Nat) : Nat :=
  l.foldl (fun acc b => acc * 256 + b) 0

/-- 4-byte big-endian encoding of a u32 (`fip.to_be_bytes()`). -/
def u32be (v : Nat) : List Nat := natToBeBytes 4 v

/-- 20-byte encoding of an address (`voter.as_bytes()`). -/
def addrBytes (a : Addr) : List Nat := natToBeBytes 20 a

/-- `enum LookupKey` from src/redis.rs. -/
inductive LookupKey where
  | votes (fip : Nat) (ntw : Network)
  | timestamp (fip : Nat) (ntw : Network)
  | voter (ntw : Network) (addr : Addr)
  | voteStarters (ntw : Network)
  | activeVotes (ntw : Network)
  | concludedVotes (ntw : Network)
  | storage (choice : VoteOption) (ntw : Network) (fip : Nat)
  | network (addr : Addr)
deriving DecidableEq, Repr

/-- The storage-table choice code from `LookupKey::to_bytes`:
Yay => 2, Nay => 3, Abstain => 4. -/
def storageChoiceCode : VoteOption → Nat
  | .yay => 2
  | .nay => 3
  | .abstain => 4

/-- `LookupKey::to_bytes` from src/redis.rs lines 586-646.
Numeric tables are `be(fip) ++ [discriminant]`; storage folds the
choice and network into the discriminant as `choice * (ntw+1)`;
address tables are a tag byte followed by the 20 address bytes;
admin tables are fixed 8-byte literals ending in the network byte. -/
def LookupKey.to_bytes : LookupKey → List Nat
  | .votes fip ntw => u32be fip ++ [ntw.toByte]
  | .storage choice ntw fip =>
      u32be fip ++ [storageChoiceCode choice * (ntw.toByte + 1)]
  | .timestamp fip ntw => u32be fip ++ [9 + ntw.toByte]
  | .voter ntw a => ntw.toByte :: addrBytes a
  | .network a => 2 :: addrBytes a
  | .voteStarters ntw => [8, 0, 0, 8, 1, 3, 5, ntw.toByte]
  | .activeVotes ntw => [8, 0, 0, 8, 1, 3, 6, ntw.toByte]
  | .concludedVotes ntw => [8, 0, 0, 8, 1, 3, 7, ntw.toByte]

/-- A typed view of the values the backend stores under its keys. -/
inductive Val where
  | num (t : Nat)
  | votes (l : List Vote)
  | fips (l : List Nat)
  | raw (b : List Nat)
  | ntw (n : Network)
deriving DecidableEq, Repr

/-- The redis store: a flat map from byte keys to values. -/
abbrev Store := List Nat → Option Val

def emptyStore : Store := fun _ => none

/-- `SET key v`. -/
def setK (s : Store) (k : List Nat) (v : Val) : Store :=
  fun q => if q = k then some v else s q

/-- `DEL key`. -/
def delK (s : Store) (k : List Nat) : Store :=
  fun q => if q = k then none else s q

/-- The error kinds the modelled operations produce (all are redis
`TypeError`s with distinct messages in the Rust source). -/
inductive RErr where
  | notAuthorizedStarter
  | alreadyStarted
  | voteNotActive
  | voterNotRegistered
  | noProviders
  | duplicateVote
  | typeMismatch
  | oracleFailed
deriving DecidableEq, Repr

/-- The external storage-power oracle `fetch_storage_amount`:
`none` models a transport/parse failure. -/
abbrev Oracle := Nat → Network → Option Nat

/-- `VoteStatus` from src/redis.rs. -/
inductive VoteStatus where
  | doesNotExist
  | inProgress (remaining : Nat)
  | concluded
deriving DecidableEq, Repr

/-- `VoteResults` from src/redis.rs. -/
structure VoteResults where
  yay : Nat
  nay : Nat
  abstain : Nat
  yay_storage_size : Nat
  nay_storage_size : Nat
  abstain_storage_size : Nat
deriving DecidableEq, Repr

/-- `Redis::votes` (redis nil and caught TypeError both give `[]`). -/
def votesGet (s : Store) (fip : Nat) (ntw : Network) : List Vote :=
  match s (LookupKey.votes fip ntw).to_bytes with
  | some (.votes l) => l
  | _ => []

/-- `Redis::voter_delegates` (nil / caught TypeError give `[]`). -/
def voter_delegates (s : Store) (voter : Addr) (ntw : Network) : List Nat :=
  match s (LookupKey.voter ntw voter).to_bytes with
  | some (.fips l) => l
  | _ => []

/-- The raw read of the active index, `Redis::active_votes(ntw, None)`
(nil / caught TypeError give `[]`). -/
def activeListRaw (s : Store) (ntw : Network) : List Nat :=
  match s (LookupKey.activeVotes ntw).to_bytes with
  | some (.fips l) => l
  | _ => []

/-- `Redis::concluded_votes`: nil reads as the empty list, but a
value of the wrong shape is a type error (no catch in the source). -/
def concludedRead (s : Store) (ntw : Network) : Except RErr (List Nat) :=
  match s (LookupKey.concludedVotes ntw).to_bytes with
  | none => .ok []
  | some (.fips l) => .ok l
  | some _ => .error .typeMismatch

/-- Total projection of the concluded index (used to state invariants). -/
def concludedList (s : Store) (ntw : Network) : List Nat :=
  match s (LookupKey.concludedVotes ntw).to_bytes with
  | some (.fips l) => l
  | _ => []

/-- `Redis::vote_start`: read the u64 start timestamp. -/
def vote_start (s : Store) (fip : Nat) (ntw : Network) : Except RErr Nat :=
  match s (LookupKey.timestamp fip ntw).to_bytes with
  | some (.num t) => .ok t
  | _ => .error .typeMismatch

/-- `Redis::network`: the voter's reverse network lookup; a missing
entry is the "voter not registered" failure of vote admission. -/
def networkGet (s : Store) (voter : Addr) : Except RErr Network :=
  match s (LookupKey.network voter).to_bytes with
  | some (.ntw n) => .ok n
  | _ => .error .voterNotRegistered

/-- `Redis::get_storage`: empty / missing reads as 0, a stored blob
must be exactly 16 bytes (a big-endian u128). -/
def get_storage (s : Store) (fip : Nat) (vote : VoteOption) (ntw : Network) :
    Except RErr Nat :=
  match s (LookupKey.storage vote ntw fip).to_bytes with
  | none => .ok 0
  | some (.raw b) =>
      if b.length = 0 then .ok 0
      else if b.length = 16 then .ok (beBytesToNat b)
      else .error .typeMismatch
  | some _ => .error .typeMismatch

/-- `Redis::is_registered`: any error reads as `false`. -/
def is_registered (s : Store) (voter : Addr) (ntw : Network) : Bool :=
  match s (LookupKey.voter ntw voter).to_bytes with
  | some (.fips l) => !l.isEmpty
  | _ => false

/-- Decode a concatenation of 20-byte addresses
(the loop in `Redis::voter_starters`). -/
def decodeAddrs : List Nat → List Addr
  | [] => []
  | x :: rest =>
      beBytesToNat (x :: rest.take 19) :: decodeAddrs (rest.drop 19)
termination_by l => l.length
decreasing_by
  simp only [List.length_cons, List.length_drop]
  omega

/-- Serialize vote starters: each address as its 20 fixed bytes. -/
def encodeAddrs (l : List Addr) : List Nat :=
  l.foldr (fun a acc => addrBytes a ++ acc) []

/-- `Redis::voter_starters`: nil reads as no starters; a stored blob
must be a multiple of 20 bytes. -/
def voter_starters (s : Store) (ntw : Network) : Except RErr (List Addr) :=
  match s (LookupKey.voteStarters ntw).to_bytes with
  | none => .ok []
  | some (.raw b) =>
      if b.length % 20 = 0 then .ok (decodeAddrs b)
      else .error .typeMismatch
  | some _ => .error .typeMismatch

/-- `Vec::sort` insertion step. -/
def insertSorted (a : Addr) : List Addr → List Addr
  | [] => [a]
  | b :: t => if a ≤ b then a :: b :: t else b :: insertSorted a t

/-- `Vec::sort` on addresses (byte order = numeric order). -/
def sortAddrs : List Addr → List Addr
  | [] => []
  | a :: t => insertSorted a (sortAddrs t)

/-- `Vec::dedup`: remove consecutive duplicates. -/
def dedupAdj : List Addr → List Addr
  | [] => []
  | [a] => [a]
  | a :: b :: t =>
      if a = b then dedupAdj (b :: t) else a :: dedupAdj (b :: t)

/-- `Redis::register_voter_starter`: push, sort, dedup, persist. -/
def register_voter_starter (s : Store) (voter : Addr) (ntw : Network) :
    Except RErr Unit × Store :=
  match voter_starters s ntw with
  | .error e => (.error e, s)
  | .ok cur =>
      let l := dedupAdj (sortAddrs (cur ++ [voter]))
      (.ok (), setK s (LookupKey.voteStarters ntw).to_bytes (.raw (encodeAddrs l)))

/-- `Redis::remove_voter_starters`: remove if present, else no-op. -/
def remove_voter_starters (s : Store) (voter : Addr) (ntw : Network) :
    Except RErr Unit × Store :=
  match voter_starters s ntw with
  | .error e => (.error e, s)
  | .ok cur =>
      if voter ∈ cur then
        (.ok (), setK s (LookupKey.voteStarters ntw).to_bytes
          (.raw (encodeAddrs (cur.filter (fun x => x != voter)))))
      else (.ok (), s)

/-- `Redis::is_authorized_starter`. -/
def is_authorized_starter (s : Store) (voter : Addr) (ntw : Network) :
    Except RErr Bool :=
  match voter_starters s ntw with
  | .error e => .error e
  | .ok starters => .ok (decide (voter ∈ starters))

/-- `Redis::register_active_vote`: append the fip to the active index. -/
def register_active_vote (s : Store) (ntw : Network) (fip : Nat) : Store :=
  setK s (LookupKey.activeVotes ntw).to_bytes
    (.fips (activeListRaw s ntw ++ [fip]))

/-- `Redis::remove_active_vote`: retain everything but `fip`; delete
the key when the remainder is empty. -/
def remove_active_vote (s : Store) (ntw : Network) (fip : Nat) : Store :=
  let cur := (activeListRaw s ntw).filter (fun x => x != fip)
  if cur.isEmpty then delK s (LookupKey.activeVotes ntw).to_bytes
  else setK s (LookupKey.activeVotes ntw).to_bytes (.fips cur)

/-- `Redis::register_concluded_vote`: remove from active, append to
concluded. -/
def register_concluded_vote (s : Store) (ntw : Network) (fip : Nat) :
    Except RErr Unit × Store :=
  let s1 := remove_active_vote s ntw fip
  match concludedRead s1 ntw with
  | .error e => (.error e, s1)
  | .ok cur =>
      (.ok (), setK s1 (LookupKey.concludedVotes ntw).to_bytes
        (.fips (cur ++ [fip])))

/-- The loop body of `Redis::active_votes(ntw, Some(vote_length))`:
keep a member whose elapsed time is below the duration, otherwise
move it to the concluded index as a side effect of the read. -/
def sweepActive (now len : Nat) (ntw : Network) :
    Store → List Nat → Except RErr (List Nat) × Store
  | s, [] => (.ok [], s)
  | s, fip :: rest =>
      match vote_start s fip ntw with
      | .error e => (.error e, s)
      | .ok t =>
          if now - t < len then
            match sweepActive now len ntw s rest with
            | (.ok l, s1) => (.ok (fip :: l), s1)
            | (.error e, s1) => (.error e, s1)
          else
            match register_concluded_vote s ntw fip with
            | (.error e, s1) => (.error e, s1)
            | (.ok _, s1) => sweepActive now len ntw s1 rest

/-- `Redis::active_votes`: `None` is the raw read, `Some len`
re-evaluates each member against the supplied duration. -/
def active_votes (now : Nat) (s : Store) (ntw : Network) (vlen : Option Nat) :
    Except RErr (List Nat) × Store :=
  let fips := activeListRaw s ntw
  match vlen with
  | none => (.ok fips, s)
  | some len => sweepActive now len ntw s fips

/-- `Redis::start_vote` (src/redis.rs lines 59-95): authorization
check against the persisted starters (or the process allow-list
`boot`), existence check on the timestamp record, then record the
timestamp and register the fip as active. -/
def start_vote (boot : List Addr) (now : Nat) (s : Store) (fip : Nat)
    (signer : Addr) (ntw : Network) : Except RErr Unit × Store :=
  match voter_starters s ntw with
  | .error e => (.error e, s)
  | .ok starters =>
      if signer ∉ starters ∧ signer ∉ boot then
        (.error .notAuthorizedStarter, s)
      else
        if (s (LookupKey.timestamp fip ntw).to_bytes).isSome then
          (.error .alreadyStarted, s)
        else
          let s1 := setK s (LookupKey.timestamp fip ntw).to_bytes (.num now)
          (.ok (), register_active_vote s1 ntw fip)

/-- `Redis::register_voter`: set the reverse network lookup, then
overwrite the provider-id set. -/
def register_voter (s : Store) (voter : Addr) (ntw : Network)
    (sp_ids : List Nat) : Store :=
  let s1 := setK s (LookupKey.network voter).to_bytes (.ntw ntw)
  setK s1 (LookupKey.voter ntw voter).to_bytes (.fips sp_ids)

/-- `Redis::unregister_voter`: delete the reverse lookup and the
forward registration. -/
def unregister_voter (s : Store) (voter : Addr) (ntw : Network) : Store :=
  let s1 := delK s (LookupKey.network voter).to_bytes
  delK s1 (LookupKey.voter ntw voter).to_bytes

/-- `Redis::add_storage` (src/redis.rs lines 548-576): read the
current per-choice total, fetch the provider's power from the
oracle, add the hard-coded 10240000 bonus for provider 6024, and
persist the new total (a u128, hence the reduction mod 2^128). -/
def add_storage (o : Oracle) (s : Store) (sp_id : Nat) (ntw : Network)
    (vote : VoteOption) (fip : Nat) : Except RErr Store :=
  match get_storage s fip vote ntw with
  | .error e => .error e
  | .ok current =>
      match o sp_id ntw with
      | none => .error .oracleFailed
      | some fetched =>
          let new_storage := if sp_id = 6024 then fetched + 10240000 else fetched
          let storage := (current + new_storage) % 2 ^ 128
          .ok (setK s (LookupKey.storage vote ntw fip).to_bytes
            (.raw (natToBeBytes 16 storage)))

/-- The `for sp_id in authorized` loop of `Redis::add_vote`: on a
failure the writes already issued stay applied. -/
def addStorageLoop (o : Oracle) (ntw : Network) (vote : VoteOption)
    (fip : Nat) : Store → List Nat → Except RErr Unit × Store
  | s, [] => (.ok (), s)
  | s, sp :: rest =>
      match add_storage o s sp ntw vote fip with
      | .error e => (.error e, s)
      | .ok s1 => addStorageLoop o ntw vote fip s1 rest

/-- `Redis::add_vote` (src/redis.rs lines 442-498): resolve the
voter's network, require the fip in the (raw) active index, require
a non-empty delegate set, reject duplicates by `(address, fip)`
equality, add each provider's power to the per-choice total, then
append the vote. -/
def add_vote (o : Oracle) (s : Store) (fip : Nat) (vote : Vote)
    (voter : Addr) : Except RErr Unit × Store :=
  match networkGet s voter with
  | .error e => (.error e, s)
  | .ok ntw =>
      if fip ∉ activeListRaw s ntw then (.error .voteNotActive, s)
      else
        let authorized := voter_delegates s voter ntw
        if authorized.isEmpty then (.error .noProviders, s)
        else
          let votes := votesGet s fip ntw
          if votes.any (fun y => voteEq y vote) then (.error .duplicateVote, s)
          else
            match addStorageLoop o ntw vote.choice fip s authorized with
            | (.error e, s1) => (.error e, s1)
            | (.ok _, s1) =>
                (.ok (), setK s1 (LookupKey.votes fip ntw).to_bytes
                  (.votes (votes ++ [vote])))

/-- `Redis::vote_status` (src/redis.rs lines 272-302). -/
def vote_status (now : Nat) (s : Store) (fip : Nat) (vlen : Nat)
    (ntw : Network) : Except RErr VoteStatus × Store :=
  if (s (LookupKey.timestamp fip ntw).to_bytes).isNone then
    (.ok .doesNotExist, s)
  else
    match active_votes now s ntw (some vlen) with
    | (.error e, s1) => (.error e, s1)
    | (.ok act, s1) =>
        if fip ∈ act then
          match vote_start s1 fip ntw with
          | .error e => (.error e, s1)
          | .ok t => (.ok (.inProgress (vlen - (now - t))), s1)
        else (.ok .concluded, s1)

/-- Count the votes cast with a given choice. -/
def countChoice (l : List Vote) (c : VoteOption) : Nat :=
  (l.filter (fun v => v.choice == c)).length

/-- `Redis::vote_results` (src/redis.rs lines 239-270): raw counts
from the vote list, power totals read from the persisted per-choice
totals. -/
def vote_results (s : Store) (fip : Nat) (ntw : Network) :
    Except RErr VoteResults :=
  let votes := votesGet s fip ntw
  match get_storage s fip .yay ntw, get_storage s fip .nay ntw,
        get_storage s fip .abstain ntw with
  | .ok y, .ok n, .ok a =>
      .ok ⟨countChoice votes .yay, countChoice votes .nay,
           countChoice votes .abstain, y, n, a⟩
  | .error e, _, _ => .error e
  | .ok _, .error e, _ => .error e
  | .ok _, .ok _, .error e => .error e

/-- Adjusted oracle answer as `add_storage` applies it
(the 6024 bonus folded in). -/
def adjOracle (o : Oracle) (ntw : Network) (i : Nat) : Option Nat :=
  (o i ntw).map (fun v => if i = 6024 then v + 10240000 else v)

/-- Sum of adjusted oracle answers over a provider-id list; `none`
if any call fails. -/
def oracleSum (o : Oracle) (ntw : Network) : List Nat → Option Nat
  | [] => some 0
  | i :: rest =>
      match adjOracle o ntw i, oracleSum o ntw rest with
      | some v, some r => some (v + r)
      | _, _ => none

/-- Sum of raw oracle answers (no bonus) over a provider-id list. -/
def rawOracleSum (o : Oracle) (ntw : Network) : List Nat → Option Nat
  | [] => some 0
  | i :: rest =>
      match o i ntw, rawOracleSum o ntw rest with
      | some v, some r => some (v + r)
      | _, _ => none

/-- The public operations of the store (the interface the request
handlers in src/lib.rs call), as a single step alphabet.  Read-only
operations are included with their (possibly side-effecting) state. -/
inductive Op where
  | opStartVote (boot : List Addr) (now : Nat) (fip : Nat) (signer : Addr) (ntw : Network)
  | opAddVote (o : Oracle) (fip : Nat) (v : Vote) (voter : Addr)
  | opVoteStatus (now : Nat) (fip : Nat) (vlen : Nat) (ntw : Network)
  | opActiveVotes (now : Nat) (ntw : Network) (vlen : Option Nat)
  | opConcludedVotes (ntw : Network)
  | opRegisterVoter (voter : Addr) (ntw : Network) (ids : List Nat)
  | opUnregisterVoter (voter : Addr) (ntw : Network)
  | opRegisterVoterStarter (voter : Addr) (ntw : Network)
  | opRemoveVoterStarters (voter : Addr) (ntw : Network)

/-- The store after executing one public operation. -/
def applyOp : Op → Store → Store
  | .opStartVote b n f a w, s => (start_vote b n s f a w).2
  | .opAddVote o f v a, s => (add_vote o s f v a).2
  | .opVoteStatus n f l w, s => (vote_status n s f l w).2
  | .opActiveVotes n w l, s => (active_votes n s w l).2
  | .opConcludedVotes _, s => s
  | .opRegisterVoter a w ids, s => register_voter s a w ids
  | .opUnregisterVoter a w, s => unregister_voter s a w
  | .opRegisterVoterStarter a w, s => (register_voter_starter s a w).2
  | .opRemoveVoterStarters a w, s => (remove_voter_starters s a w).2

/-- States reachable from the empty store by public operations. -/
inductive Reachable : Store → Prop where
  | init : Reachable emptyStore
  | step (op : Op) {s : Store} : Reachable s → Reachable (applyOp op s)

/-- One public operation as a relation. -/
def StepRel (s s1 : Store) : Prop := ∃ op, s1 = applyOp op s

/-- A proposal that has concluded: out of the active index, in the
concluded index, with its timestamp record still present. -/
def ConcludedState (s : Store) (fip : Nat) (ntw : Network) : Prop :=
  fip ∉ activeListRaw s ntw ∧ fip ∈ concludedList s ntw ∧
    (s (LookupKey.timestamp fip ntw).to_bytes).isSome

/-- Two stores agree on the active index, concluded index and
timestamp keys (none of those tables was touched). -/
def AdminSame (s s1 : Store) : Prop :=
  (∀ w, s1 (LookupKey.activeVotes w).to_bytes
      = s (LookupKey.activeVotes w).to_bytes) ∧
  (∀ w, s1 (LookupKey.concludedVotes w).to_bytes
      = s (LookupKey.concludedVotes w).to_bytes) ∧
  (∀ f w, s1 (LookupKey.timestamp f w).to_bytes
      = s (LookupKey.timestamp f w).to_bytes)

/-- The lifecycle invariant: every concluded proposal has a timestamp
record, and no proposal number is simultaneously in the active and
the concluded index of one network. -/
def IndexInv (s : Store) : Prop :=
  (∀ w f, f ∈ concludedList s w →
    (s (LookupKey.timestamp f w).to_bytes).isSome) ∧
  (∀ w f, ¬(f ∈ activeListRaw s w ∧ f ∈ concludedList s w))

/-! Concrete scenarios used to instantiate the theorems below. -/

def oC2 : Oracle := fun i _ => if i = 3 then some 10 else none

def sC2 : Store :=
  setK (setK (setK emptyStore (LookupKey.network 5).to_bytes (.ntw .testnet))
    (LookupKey.voter .testnet 5).to_bytes (.fips [3]))
    (LookupKey.activeVotes .testnet).to_bytes (.fips [1])

def vC2a : Vote := ⟨.yay, 5, 1⟩

def vC2b : Vote := ⟨.nay, 5, 1⟩

def oC3 : Oracle := fun i _ => if i = 7 then some 500 else none

def sC3 : Store :=
  setK (setK (setK (setK emptyStore
    (LookupKey.timestamp 1 .testnet).to_bytes (.num 0))
    (LookupKey.activeVotes .testnet).to_bytes (.fips [1]))
    (LookupKey.network 9).to_bytes (.ntw .testnet))
    (LookupKey.voter .testnet 9).to_bytes (.fips [7])

def vC3 : Vote := ⟨.yay, 9, 1⟩

def oC4 : Oracle :=
  fun i _ => if i = 6024 then some 100 else if i = 7 then some 50 else none

def sC4 : Store :=
  setK (setK (setK (setK (setK emptyStore
    (LookupKey.network 11).to_bytes (.ntw .testnet))
    (LookupKey.voter .testnet 11).to_bytes (.fips [6024]))
    (LookupKey.network 12).to_bytes (.ntw .testnet))
    (LookupKey.voter .testnet 12).to_bytes (.fips [7]))
    (LookupKey.activeVotes .testnet).to_bytes (.fips [2])

def vC4a : Vote := ⟨.yay, 11, 2⟩

def vC4b : Vote := ⟨.yay, 12, 2⟩

def oC4w : Oracle :=
  fun i _ => if i = 8 then some 100 else if i = 7 then some 50 else none

def sC4w : Store :=
  setK (setK (setK (setK (setK emptyStore
    (LookupKey.network 11).to_bytes (.ntw .testnet))
    (LookupKey.voter .testnet 11).to_bytes (.fips [8]))
    (LookupKey.network 12).to_bytes (.ntw .testnet))
    (LookupKey.voter .testnet 12).to_bytes (.fips [7]))
    (LookupKey.activeVotes .testnet).to_bytes (.fips [2])

def oC5 : Oracle := fun i _ => if i = 3 then some 10 else none

def sC5 : Store :=
  setK (setK (setK emptyStore (LookupKey.network 5).to_bytes (.ntw .testnet))
    (LookupKey.voter .testnet 5).to_bytes (.fips [3, 4]))
    (LookupKey.activeVotes .testnet).to_bytes (.fips [1])

def vC5 : Vote := ⟨.yay, 5, 1⟩

def sC6 : Store :=
  setK (setK emptyStore (LookupKey.timestamp 7 .testnet).to_bytes (.num 0))
    (LookupKey.concludedVotes .testnet).to_bytes (.fips [7])

def oC9 : Oracle := fun _ _ => some 100

def oC10 : Oracle := fun i _ => if i = 3 then some 10 else none

def sC10 : Store :=
  setK (setK (setK (setK emptyStore
    (LookupKey.network 9).to_bytes (.ntw .testnet))
    (LookupKey.voter .testnet 9).to_bytes (.fips [3]))
    (LookupKey.activeVotes .testnet).to_bytes (.fips [1]))
    (LookupKey.votes 1 .testnet).to_bytes (.votes [⟨.yay, 9, 1⟩])

def vC10 : Vote := ⟨.nay, 9, 5⟩

instance exceptDecEq {ε α : Type} [DecidableEq ε] [DecidableEq α] :
    DecidableEq (Except ε α) := fun x y =>
  match x, y with
  | .ok a, .ok b =>
      if h : a = b then .isTrue (by rw [h])
      else .isFalse (fun he => h (Except.ok.inj he))
  | .error a, .error b =>
      if h : a = b then .isTrue (by rw [h])
      else .isFalse (fun he => h (Except.error.inj he))
  | .ok _, .error _ => .isFalse (fun he => Except.noConfusion he)
  | .error _, .ok _ => .isFalse (fun he => Except.noConfusion he)

/-! ### Byte-encoding lemmas -/

theorem natToBeBytes_length (k v : Nat) : (natToBeBytes k v).length = k := by
  induction k generalizing v with
  | zero => simp [natToBeBytes]
  | succ k ih => simp [natToBeBytes, ih]

theorem beBytesToNat_natToBeBytes (k v : Nat) :
    beBytesToNat (natToBeBytes k v) = v % 256 ^ k := by
  induction k generalizing v with
  | zero => simp [natToBeBytes, beBytesToNat, Nat.mod_one]
  | succ k ih =>
    simp only [natToBeBytes, beBytesToNat, List.foldl_append, List.foldl_cons,
      List.foldl_nil]
    rw [← beBytesToNat, ih, pow_succ, mul_comm (256 ^ k) 256, Nat.mod_mul]
    ring

theorem u32be_length (v : Nat) : (u32be v).length = 4 :=
  natToBeBytes_length 4 v

theorem addrBytes_length (a : Addr) : (addrBytes a).length = 20 :=
  natToBeBytes_length 20 a

/-! ### Key-discrimination lemmas -/

theorem key_ne_of_length {l l1 : List Nat} (h : l.length ≠ l1.length) :
    l ≠ l1 := fun he => h (he ▸ rfl)

theorem snoc_ne_of_last {l l1 : List Nat} {a b : Nat}
    (hl : l.length = l1.length) (h : a ≠ b) : l ++ [a] ≠ l1 ++ [b] := by
  intro he
  exact h (List.cons.inj (List.append_inj_right he hl)).1

theorem votes_key_length (f : Nat) (w : Network) :
    (LookupKey.votes f w).to_bytes.length = 5 := by
  simp [LookupKey.to_bytes, u32be_length]

theorem timestamp_key_length (f : Nat) (w : Network) :
    (LookupKey.timestamp f w).to_bytes.length = 5 := by
  simp [LookupKey.to_bytes, u32be_length]

theorem storage_key_length (c : VoteOption) (w : Network) (f : Nat) :
    (LookupKey.storage c w f).to_bytes.length = 5 := by
  simp [LookupKey.to_bytes, u32be_length]

theorem voter_key_length (w : Network) (a : Addr) :
    (LookupKey.voter w a).to_bytes.length = 21 := by
  simp [LookupKey.to_bytes, addrBytes_length]

theorem network_key_length (a : Addr) :
    (LookupKey.network a).to_bytes.length = 21 := by
  simp [LookupKey.to_bytes, addrBytes_length]

theorem starters_key_length (w : Network) :
    (LookupKey.voteStarters w).to_bytes.length = 8 := by
  cases w <;> rfl

theorem active_key_length (w : Network) :
    (LookupKey.activeVotes w).to_bytes.length = 8 := by
  cases w <;> rfl

theorem concluded_key_length (w : Network) :
    (LookupKey.concludedVotes w).to_bytes.length = 8 := by
  cases w <;> rfl

theorem storage_ne_votes_key (c : VoteOption) (w w1 : Network) (f f1 : Nat) :
    (LookupKey.storage c w f).to_bytes ≠ (LookupKey.votes f1 w1).to_bytes := by
  simp only [LookupKey.to_bytes]
  apply snoc_ne_of_last (by rw [u32be_length, u32be_length])
  cases c <;> cases w <;> cases w1 <;> decide

theorem storage_ne_timestamp_key (c : VoteOption) (w w1 : Network) (f f1 : Nat) :
    (LookupKey.storage c w f).to_bytes ≠ (LookupKey.timestamp f1 w1).to_bytes := by
  simp only [LookupKey.to_bytes]
  apply snoc_ne_of_last (by rw [u32be_length, u32be_length])
  cases c <;> cases w <;> cases w1 <;> decide

theorem votes_ne_timestamp_key (w w1 : Network) (f f1 : Nat) :
    (LookupKey.votes f w).to_bytes ≠ (LookupKey.timestamp f1 w1).to_bytes := by
  simp only [LookupKey.to_bytes]
  apply snoc_ne_of_last (by rw [u32be_length, u32be_length])
  cases w <;> cases w1 <;> decide

theorem storage_ne_storage_key_same_ntw (c c1 : VoteOption) (w : Network)
    (f f1 : Nat) (h : c ≠ c1) :
    (LookupKey.storage c w f).to_bytes ≠ (LookupKey.storage c1 w f1).to_bytes := by
  simp only [LookupKey.to_bytes]
  apply snoc_ne_of_last (by rw [u32be_length, u32be_length])
  cases c <;> cases c1 <;> cases w <;> first | exact absurd rfl h | decide

theorem storage_ne_active_key (c : VoteOption) (w w1 : Network) (f : Nat) :
    (LookupKey.storage c w f).to_bytes ≠ (LookupKey.activeVotes w1).to_bytes :=
  key_ne_of_length (by rw [storage_key_length, active_key_length]; decide)

theorem storage_ne_concluded_key (c : VoteOption) (w w1 : Network) (f : Nat) :
    (LookupKey.storage c w f).to_bytes ≠ (LookupKey.concludedVotes w1).to_bytes :=
  key_ne_of_length (by rw [storage_key_length, concluded_key_length]; decide)

theorem storage_ne_starters_key (c : VoteOption) (w w1 : Network) (f : Nat) :
    (LookupKey.storage c w f).to_bytes ≠ (LookupKey.voteStarters w1).to_bytes :=
  key_ne_of_length (by rw [storage_key_length, starters_key_length]; decide)

theorem storage_ne_voter_key (c : VoteOption) (w w1 : Network) (f : Nat) (a : Addr) :
    (LookupKey.storage c w f).to_bytes ≠ (LookupKey.voter w1 a).to_bytes :=
  key_ne_of_length (by rw [storage_key_length, voter_key_length]; decide)

theorem storage_ne_network_key (c : VoteOption) (w : Network) (f : Nat) (a : Addr) :
    (LookupKey.storage c w f).to_bytes ≠ (LookupKey.network a).to_bytes :=
  key_ne_of_length (by rw [storage_key_length, network_key_length]; decide)

theorem votes_ne_active_key (f : Nat) (w w1 : Network) :
    (LookupKey.votes f w).to_bytes ≠ (LookupKey.activeVotes w1).to_bytes :=
  key_ne_of_length (by rw [votes_key_length, active_key_length]; decide)

theorem votes_ne_concluded_key (f : Nat) (w w1 : Network) :
    (LookupKey.votes f w).to_bytes ≠ (LookupKey.concludedVotes w1).to_bytes :=
  key_ne_of_length (by rw [votes_key_length, concluded_key_length]; decide)

theorem votes_ne_starters_key (f : Nat) (w w1 : Network) :
    (LookupKey.votes f w).to_bytes ≠ (LookupKey.voteStarters w1).to_bytes :=
  key_ne_of_length (by rw [votes_key_length, starters_key_length]; decide)

theorem votes_ne_voter_key (f : Nat) (w w1 : Network) (a : Addr) :
    (LookupKey.votes f w).to_bytes ≠ (LookupKey.voter w1 a).to_bytes :=
  key_ne_of_length (by rw [votes_key_length, voter_key_length]; decide)

theorem votes_ne_network_key (f : Nat) (w : Network) (a : Addr) :
    (LookupKey.votes f w).to_bytes ≠ (LookupKey.network a).to_bytes :=
  key_ne_of_length (by rw [votes_key_length, network_key_length]; decide)

theorem timestamp_ne_active_key (f : Nat) (w w1 : Network) :
    (LookupKey.timestamp f w).to_bytes ≠ (LookupKey.activeVotes w1).to_bytes :=
  key_ne_of_length (by rw [timestamp_key_length, active_key_length]; decide)

theorem timestamp_ne_concluded_key (f : Nat) (w w1 : Network) :
    (LookupKey.timestamp f w).to_bytes ≠ (LookupKey.concludedVotes w1).to_bytes :=
  key_ne_of_length (by rw [timestamp_key_length, concluded_key_length]; decide)

theorem timestamp_ne_starters_key (f : Nat) (w w1 : Network) :
    (LookupKey.timestamp f w).to_bytes ≠ (LookupKey.voteStarters w1).to_bytes :=
  key_ne_of_length (by rw [timestamp_key_length, starters_key_length]; decide)

theorem timestamp_ne_voter_key (f : Nat) (w w1 : Network) (a : Addr) :
    (LookupKey.timestamp f w).to_bytes ≠ (LookupKey.voter w1 a).to_bytes :=
  key_ne_of_length (by rw [timestamp_key_length, voter_key_length]; decide)

theorem timestamp_ne_network_key (f : Nat) (w : Network) (a : Addr) :
    (LookupKey.timestamp f w).to_bytes ≠ (LookupKey.network a).to_bytes :=
  key_ne_of_length (by rw [timestamp_key_length, network_key_length]; decide)

theorem voter_ne_active_key (w w1 : Network) (a : Addr) :
    (LookupKey.voter w a).to_bytes ≠ (LookupKey.activeVotes w1).to_bytes :=
  key_ne_of_length (by rw [voter_key_length, active_key_length]; decide)

theorem voter_ne_concluded_key (w w1 : Network) (a : Addr) :
    (LookupKey.voter w a).to_bytes ≠ (LookupKey.concludedVotes w1).to_bytes :=
  key_ne_of_length (by rw [voter_key_length, concluded_key_length]; decide)

theorem voter_ne_starters_key (w w1 : Network) (a : Addr) :
    (LookupKey.voter w a).to_bytes ≠ (LookupKey.voteStarters w1).to_bytes :=
  key_ne_of_length (by rw [voter_key_length, starters_key_length]; decide)

theorem voter_ne_timestamp_key (w w1 : Network) (a : Addr) (f : Nat) :
    (LookupKey.voter w a).to_bytes ≠ (LookupKey.timestamp f w1).to_bytes :=
  key_ne_of_length (by rw [voter_key_length, timestamp_key_length]; decide)

theorem network_ne_active_key (a : Addr) (w : Network) :
    (LookupKey.network a).to_bytes ≠ (LookupKey.activeVotes w).to_bytes :=
  key_ne_of_length (by rw [network_key_length, active_key_length]; decide)

theorem network_ne_concluded_key (a : Addr) (w : Network) :
    (LookupKey.network a).to_bytes ≠ (LookupKey.concludedVotes w).to_bytes :=
  key_ne_of_length (by rw [network_key_length, concluded_key_length]; decide)

theorem network_ne_starters_key (a : Addr) (w : Network) :
    (LookupKey.network a).to_bytes ≠ (LookupKey.voteStarters w).to_bytes :=
  key_ne_of_length (by rw [network_key_length, starters_key_length]; decide)

theorem network_ne_timestamp_key (a : Addr) (w : Network) (f : Nat) :
    (LookupKey.network a).to_bytes ≠ (LookupKey.timestamp f w).to_bytes :=
  key_ne_of_length (by rw [network_key_length, timestamp_key_length]; decide)

theorem starters_ne_active_key (w w1 : Network) :
    (LookupKey.voteStarters w).to_bytes ≠ (LookupKey.activeVotes w1).to_bytes := by
  cases w <;> cases w1 <;> decide

theorem starters_ne_concluded_key (w w1 : Network) :
    (LookupKey.voteStarters w).to_bytes ≠ (LookupKey.concludedVotes w1).to_bytes := by
  cases w <;> cases w1 <;> decide

theorem active_ne_concluded_key (w w1 : Network) :
    (LookupKey.activeVotes w).to_bytes ≠ (LookupKey.concludedVotes w1).to_bytes := by
  cases w <;> cases w1 <;> decide

theorem active_key_inj {w w1 : Network}
    (h : (LookupKey.activeVotes w).to_bytes = (LookupKey.activeVotes w1).to_bytes) :
    w = w1 := by
  cases w <;> cases w1 <;> first | rfl | exact absurd h (by decide)

theorem concluded_key_inj {w w1 : Network}
    (h : (LookupKey.concludedVotes w).to_bytes = (LookupKey.concludedVotes w1).to_bytes) :
    w = w1 := by
  cases w <;> cases w1 <;> first | rfl | exact absurd h (by decide)

/-! ### Store-update lemmas -/

theorem setK_self (s : Store) (k : List Nat) (v : Val) : setK s k v k = some v := by
  simp [setK]

theorem setK_other (s : Store) {k q : List Nat} (v : Val) (h : q ≠ k) :
    setK s k v q = s q := by
  simp [setK, h]

theorem delK_self (s : Store) (k : List Nat) : delK s k k = none := by
  simp [delK]

theorem delK_other (s : Store) {k q : List Nat} (h : q ≠ k) :
    delK s k q = s q := by
  simp [delK, h]

/-! ### Read congruence: each getter depends only on its own key -/

theorem votesGet_congr {s1 s : Store} {f : Nat} {w : Network}
    (h : s1 (LookupKey.votes f w).to_bytes = s (LookupKey.votes f w).to_bytes) :
    votesGet s1 f w = votesGet s f w := by
  simp [votesGet, h]

theorem voter_delegates_congr {s1 s : Store} {a : Addr} {w : Network}
    (h : s1 (LookupKey.voter w a).to_bytes = s (LookupKey.voter w a).to_bytes) :
    voter_delegates s1 a w = voter_delegates s a w := by
  simp [voter_delegates, h]

theorem activeListRaw_congr {s1 s : Store} {w : Network}
    (h : s1 (LookupKey.activeVotes w).to_bytes = s (LookupKey.activeVotes w).to_bytes) :
    activeListRaw s1 w = activeListRaw s w := by
  simp [activeListRaw, h]

theorem concludedList_congr {s1 s : Store} {w : Network}
    (h : s1 (LookupKey.concludedVotes w).to_bytes
       = s (LookupKey.concludedVotes w).to_bytes) :
    concludedList s1 w = concludedList s w := by
  simp [concludedList, h]

theorem networkGet_congr {s1 s : Store} {a : Addr}
    (h : s1 (LookupKey.network a).to_bytes = s (LookupKey.network a).to_bytes) :
    networkGet s1 a = networkGet s a := by
  simp [networkGet, h]

theorem get_storage_congr {s1 s : Store} {f : Nat} {c : VoteOption} {w : Network}
    (h : s1 (LookupKey.storage c w f).to_bytes
       = s (LookupKey.storage c w f).to_bytes) :
    get_storage s1 f c w = get_storage s f c w := by
  simp [get_storage, h]

theorem vote_start_congr {s1 s : Store} {f : Nat} {w : Network}
    (h : s1 (LookupKey.timestamp f w).to_bytes
       = s (LookupKey.timestamp f w).to_bytes) :
    vote_start s1 f w = vote_start s f w := by
  simp [vote_start, h]

theorem voter_starters_congr {s1 s : Store} {w : Network}
    (h : s1 (LookupKey.voteStarters w).to_bytes
       = s (LookupKey.voteStarters w).to_bytes) :
    voter_starters s1 w = voter_starters s w := by
  simp [voter_starters, h]

/-! ### The storage loop writes a single key -/

theorem add_storage_ok_char {o : Oracle} {s s1 : Store} {sp : Nat}
    {w : Network} {c : VoteOption} {f : Nat}
    (h : add_storage o s sp w c f = .ok s1) :
    ∃ t0 v, get_storage s f c w = .ok t0 ∧ o sp w = some v ∧
      s1 = setK s (LookupKey.storage c w f).to_bytes
        (.raw (natToBeBytes 16
          ((t0 + (if sp = 6024 then v + 10240000 else v)) % 2 ^ 128))) := by
  unfold add_storage at h
  cases hg : get_storage s f c w with
  | error e => rw [hg] at h; exact absurd h (by simp)
  | ok t0 =>
    rw [hg] at h
    cases ho : o sp w with
    | none => rw [ho] at h; exact absurd h (by simp)
    | some v =>
      rw [ho] at h
      simp only [Except.ok.injEq] at h
      exact ⟨t0, v, rfl, rfl, h.symm⟩

theorem addStorageLoop_other_key (o : Oracle) (w : Network) (c : VoteOption)
    (f : Nat) (ids : List Nat) (s : Store) {k : List Nat}
    (h : k ≠ (LookupKey.storage c w f).to_bytes) :
    (addStorageLoop o w c f s ids).2 k = s k := by
  induction ids generalizing s with
  | nil => rfl
  | cons i rest ih =>
    simp only [addStorageLoop]
    cases hads : add_storage o s i w c f with
    | error e => rfl
    | ok s1 =>
      obtain ⟨t0, v, -, -, hs1⟩ := add_storage_ok_char hads
      rw [ih s1, hs1, setK_other _ _ h]

theorem get_storage_setK (s : Store) (c : VoteOption) (w : Network)
    (f x : Nat) :
    get_storage (setK s (LookupKey.storage c w f).to_bytes
      (.raw (natToBeBytes 16 x))) f c w = .ok (x % 2 ^ 128) := by
  have h256 : (256 : Nat) ^ 16 = 2 ^ 128 := by norm_num
  simp [get_storage, setK_self, natToBeBytes_length, beBytesToNat_natToBeBytes, h256]

theorem addStorageLoop_ok_char {o : Oracle} {w : Network} {c : VoteOption}
    {f : Nat} {ids : List Nat} {S t0 : Nat} (s : Store)
    (hsum : oracleSum o w ids = some S)
    (ht : get_storage s f c w = .ok t0) (hlt : t0 < 2 ^ 128) :
    (addStorageLoop o w c f s ids).1 = .ok () ∧
    get_storage (addStorageLoop o w c f s ids).2 f c w
      = .ok ((t0 + S) % 2 ^ 128) := by
  induction ids generalizing s t0 S with
  | nil =>
    simp only [oracleSum, Option.some.injEq] at hsum
    subst hsum
    refine ⟨rfl, ?_⟩
    simp only [addStorageLoop, Nat.add_zero, Nat.mod_eq_of_lt hlt]
    exact ht
  | cons i rest ih =>
    simp only [oracleSum] at hsum
    cases ha : adjOracle o w i with
    | none => rw [ha] at hsum; simp at hsum
    | some va =>
      cases hr : oracleSum o w rest with
      | none => rw [ha, hr] at hsum; simp at hsum
      | some Sr =>
        rw [ha, hr] at hsum
        simp only [Option.some.injEq] at hsum
        obtain ⟨v, hov, hva⟩ : ∃ v, o i w = some v ∧
            va = if i = 6024 then v + 10240000 else v := by
          unfold adjOracle at ha
          cases hov : o i w with
          | none => rw [hov] at ha; exact absurd ha (by simp)
          | some v =>
            rw [hov] at ha
            simp only [Option.map_some', Option.some.injEq] at ha
            exact ⟨v, rfl, ha.symm⟩
        have hstep : add_storage o s i w c f = .ok (setK s
            (LookupKey.storage c w f).to_bytes
            (.raw (natToBeBytes 16 ((t0 + va) % 2 ^ 128)))) := by
          unfold add_storage
          rw [ht, hov, hva]
        simp only [addStorageLoop, hstep]
        have ht1 := get_storage_setK s c w f ((t0 + va) % 2 ^ 128)
        rw [Nat.mod_mod_of_dvd _ dvd_rfl] at ht1
        have hrec := ih _ hr ht1 (Nat.mod_lt _ (by positivity))
        refine ⟨hrec.1, ?_⟩
        rw [hrec.2, Nat.mod_add_mod, Nat.add_assoc, hsum]

theorem addStorageLoop_err_char {o : Oracle} {w : Network} {c : VoteOption}
    {f : Nat} {pre : List Nat} (rest : List Nat) {bad : Nat} {S t0 : Nat}
    (s : Store)
    (hsum : oracleSum o w pre = some S)
    (hbad : adjOracle o w bad = none)
    (ht : get_storage s f c w = .ok t0) (hlt : t0 < 2 ^ 128) :
    (addStorageLoop o w c f s (pre ++ bad :: rest)).1 = .error .oracleFailed ∧
    get_storage (addStorageLoop o w c f s (pre ++ bad :: rest)).2 f c w
      = .ok ((t0 + S) % 2 ^ 128) := by
  induction pre generalizing s t0 S with
  | nil =>
    simp only [oracleSum, Option.some.injEq] at hsum
    subst hsum
    have hbadO : o bad w = none := by
      unfold adjOracle at hbad
      cases hov : o bad w with
      | none => rfl
      | some v => rw [hov] at hbad; simp at hbad
    have hstep : add_storage o s bad w c f = .error .oracleFailed := by
      unfold add_storage
      rw [ht, hbadO]
    constructor
    · simp [addStorageLoop, hstep]
    · simp only [List.nil_append, addStorageLoop, hstep]
      rw [Nat.add_zero, Nat.mod_eq_of_lt hlt]
      exact ht
  | cons i pre1 ih =>
    simp only [oracleSum] at hsum
    cases ha : adjOracle o w i with
    | none => rw [ha] at hsum; simp at hsum
    | some va =>
      cases hr : oracleSum o w pre1 with
      | none => rw [ha, hr] at hsum; simp at hsum
      | some Sr =>
        rw [ha, hr] at hsum
        simp only [Option.some.injEq] at hsum
        obtain ⟨v, hov, hva⟩ : ∃ v, o i w = some v ∧
            va = if i = 6024 then v + 10240000 else v := by
          unfold adjOracle at ha
          cases hov : o i w with
          | none => rw [hov] at ha; exact absurd ha (by simp)
          | some v =>
            rw [hov] at ha
            simp only [Option.map_some', Option.some.injEq] at ha
            exact ⟨v, rfl, ha.symm⟩
        have hstep : add_storage o s i w c f = .ok (setK s
            (LookupKey.storage c w f).to_bytes
            (.raw (natToBeBytes 16 ((t0 + va) % 2 ^ 128)))) := by
          unfold add_storage
          rw [ht, hov, hva]
        simp only [List.cons_append, addStorageLoop, hstep, List.append_eq]
        have ht1 := get_storage_setK s c w f ((t0 + va) % 2 ^ 128)
        rw [Nat.mod_mod_of_dvd _ dvd_rfl] at ht1
        have hrec := ih _ hr ht1 (Nat.mod_lt _ (by positivity))
        refine ⟨hrec.1, ?_⟩
        rw [hrec.2, Nat.mod_add_mod, Nat.add_assoc, hsum]

theorem oracleSum_eq_raw {o : Oracle} {w : Network} {ids : List Nat}
    (h : 6024 ∉ ids) : oracleSum o w ids = rawOracleSum o w ids := by
  induction ids with
  | nil => rfl
  | cons i rest ih =>
    simp only [List.mem_cons, not_or] at h
    have hne : i ≠ 6024 := fun he => h.1 he.symm
    cases hov : o i w <;>
      simp [oracleSum, rawOracleSum, adjOracle, ih h.2, hov, hne]

/-! ### Characterizations of `add_vote` -/

theorem get_storage_error_shape {s : Store} {f : Nat} {c : VoteOption}
    {w : Network} {e : RErr} (h : get_storage s f c w = .error e) :
    e = .typeMismatch := by
  unfold get_storage at h
  cases hk : s (LookupKey.storage c w f).to_bytes with
  | none => rw [hk] at h; simp at h
  | some val =>
    rw [hk] at h
    cases val with
    | raw b =>
      by_cases h0 : b.length = 0
      · simp [h0] at h
      · by_cases h16 : b.length = 16
        · simp [h0, h16] at h
        · simp [h0, h16] at h; exact h.symm
    | num t => simp at h; exact h.symm
    | votes l => simp at h; exact h.symm
    | fips l => simp at h; exact h.symm
    | ntw n => simp at h; exact h.symm

theorem add_storage_error_shape {o : Oracle} {s : Store} {sp : Nat}
    {w : Network} {c : VoteOption} {f : Nat} {e : RErr}
    (h : add_storage o s sp w c f = .error e) :
    e = .typeMismatch ∨ e = .oracleFailed := by
  unfold add_storage at h
  cases hg : get_storage s f c w with
  | error e1 =>
    rw [hg] at h
    simp only [Except.error.injEq] at h
    exact .inl (h ▸ get_storage_error_shape hg)
  | ok t0 =>
    rw [hg] at h
    cases ho : o sp w with
    | none => rw [ho] at h; simp only [Except.error.injEq] at h; exact .inr h.symm
    | some v => rw [ho] at h; simp at h

theorem addStorageLoop_error_shape {o : Oracle} {w : Network} {c : VoteOption}
    {f : Nat} {ids : List Nat} {s : Store} {e : RErr}
    (h : (addStorageLoop o w c f s ids).1 = .error e) :
    e = .typeMismatch ∨ e = .oracleFailed := by
  induction ids generalizing s with
  | nil => simp [addStorageLoop] at h
  | cons i rest ih =>
    simp only [addStorageLoop] at h
    cases hads : add_storage o s i w c f with
    | error e1 =>
      rw [hads] at h
      simp only [Except.error.injEq] at h
      exact h ▸ add_storage_error_shape hads
    | ok s1 =>
      rw [hads] at h
      exact ih h

theorem add_vote_notActive_char {o : Oracle} {s : Store} {f : Nat} {v : Vote}
    {a : Addr} {w : Network} (hn : networkGet s a = .ok w)
    (hact : f ∉ activeListRaw s w) :
    add_vote o s f v a = (.error .voteNotActive, s) := by
  unfold add_vote
  rw [hn]
  dsimp only
  rw [if_pos hact]

theorem add_vote_dup_char {o : Oracle} {s : Store} {f : Nat} {v : Vote}
    {a : Addr} {w : Network} (hn : networkGet s a = .ok w)
    (hact : f ∈ activeListRaw s w)
    (hd : voter_delegates s a w ≠ [])
    (hdup : (votesGet s f w).any (fun y => voteEq y v) = true) :
    add_vote o s f v a = (.error .duplicateVote, s) := by
  have hA : (voter_delegates s a w).isEmpty = false := by
    cases hL : voter_delegates s a w
    · exact absurd hL hd
    · rfl
  unfold add_vote
  rw [hn]
  dsimp only
  rw [if_neg (fun hc => hc hact)]
  simp only [hA, Bool.false_eq_true, if_false, hdup, if_true]

theorem add_vote_ok_char {o : Oracle} {s : Store} {f : Nat} {v : Vote}
    {a : Addr} {w : Network} {S t0 : Nat} (hn : networkGet s a = .ok w)
    (hact : f ∈ activeListRaw s w)
    (hd : voter_delegates s a w ≠ [])
    (hdup : (votesGet s f w).any (fun y => voteEq y v) = false)
    (hsum : oracleSum o w (voter_delegates s a w) = some S)
    (ht0 : get_storage s f v.choice w = .ok t0) (hlt : t0 < 2 ^ 128) :
    (add_vote o s f v a).1 = .ok () ∧
    votesGet (add_vote o s f v a).2 f w = votesGet s f w ++ [v] ∧
    get_storage (add_vote o s f v a).2 f v.choice w = .ok ((t0 + S) % 2 ^ 128) ∧
    ∀ k, k ≠ (LookupKey.storage v.choice w f).to_bytes →
      k ≠ (LookupKey.votes f w).to_bytes → (add_vote o s f v a).2 k = s k := by
  have hA : (voter_delegates s a w).isEmpty = false := by
    cases hL : voter_delegates s a w
    · exact absurd hL hd
    · rfl
  obtain ⟨h1, h2⟩ := addStorageLoop_ok_char (o := o) s hsum ht0 hlt
  have hother := fun (k : List Nat)
      (hk : k ≠ (LookupKey.storage v.choice w f).to_bytes) =>
    addStorageLoop_other_key o w v.choice f (voter_delegates s a w) s hk
  unfold add_vote
  rw [hn]
  dsimp only
  rw [if_neg (fun hc => hc hact)]
  simp only [hA, Bool.false_eq_true, if_false, hdup]
  cases hloop : addStorageLoop o w v.choice f s (voter_delegates s a w) with
  | mk r s1 =>
    rw [hloop] at h1 h2
    simp only at h1 h2
    subst h1
    refine ⟨rfl, ?_, ?_, ?_⟩
    · simp only [votesGet, setK_self]
    · rw [get_storage_congr (setK_other s1 _ (storage_ne_votes_key _ _ _ _ _))]
      exact h2
    · intro k hk1 hk2
      dsimp only
      rw [setK_other s1 _ hk2]
      have := hother k hk1
      rw [hloop] at this
      exact this

/-! ### Index-manipulation lemmas -/

theorem active_key_ne_of_ne {w1 w : Network} (h : w1 ≠ w) :
    (LookupKey.activeVotes w1).to_bytes ≠ (LookupKey.activeVotes w).to_bytes :=
  fun he => h (active_key_inj he)

theorem concluded_key_ne_of_ne {w1 w : Network} (h : w1 ≠ w) :
    (LookupKey.concludedVotes w1).to_bytes
      ≠ (LookupKey.concludedVotes w).to_bytes :=
  fun he => h (concluded_key_inj he)

theorem mem_filter_bne {x f : Nat} {l : List Nat} :
    x ∈ l.filter (fun y => y != f) ↔ x ∈ l ∧ x ≠ f := by
  simp [List.mem_filter, bne_iff_ne]

theorem isSome_setK {s : Store} {q k : List Nat} {v : Val}
    (h : (s q).isSome) : ((setK s k v) q).isSome := by
  unfold setK
  by_cases he : q = k <;> simp [he, h]

theorem vote_start_ok_isSome {s : Store} {f : Nat} {w : Network} {t : Nat}
    (h : vote_start s f w = .ok t) :
    (s (LookupKey.timestamp f w).to_bytes).isSome := by
  unfold vote_start at h
  cases hk : s (LookupKey.timestamp f w).to_bytes with
  | none => rw [hk] at h; simp at h
  | some val => simp

theorem concludedRead_ok_eq {s : Store} {w : Network} {l : List Nat}
    (h : concludedRead s w = .ok l) : concludedList s w = l := by
  unfold concludedRead at h
  unfold concludedList
  cases hk : s (LookupKey.concludedVotes w).to_bytes with
  | none => rw [hk] at h; simp only [Except.ok.injEq] at h; rw [← h]
  | some val =>
    rw [hk] at h
    cases val with
    | fips l1 => simp only [Except.ok.injEq] at h; rw [← h]
    | num t => simp at h
    | votes l1 => simp at h
    | raw b => simp at h
    | ntw n => simp at h

theorem remove_active_vote_other {s : Store} {w : Network} {f : Nat}
    {k : List Nat} (h : k ≠ (LookupKey.activeVotes w).to_bytes) :
    remove_active_vote s w f k = s k := by
  unfold remove_active_vote
  by_cases he : ((activeListRaw s w).filter (fun x => x != f)).isEmpty = true <;>
    simp only [he, if_true, if_false, Bool.false_eq_true, delK_other _ h,
      setK_other _ _ h]

theorem remove_active_vote_active_same (s : Store) (w : Network) (f : Nat) :
    activeListRaw (remove_active_vote s w f) w
      = (activeListRaw s w).filter (fun x => x != f) := by
  unfold remove_active_vote
  by_cases he : ((activeListRaw s w).filter (fun x => x != f)).isEmpty = true
  · simp only [he, if_true]
    rw [List.isEmpty_iff] at he
    rw [he]
    simp [activeListRaw, delK_self]
  · simp only [he, Bool.false_eq_true, if_false]
    simp [activeListRaw, setK_self]

theorem remove_active_vote_active_other {s : Store} {w w1 : Network} {f : Nat}
    (h : w1 ≠ w) :
    activeListRaw (remove_active_vote s w f) w1 = activeListRaw s w1 :=
  activeListRaw_congr (remove_active_vote_other (active_key_ne_of_ne h))

theorem rcv_other {s : Store} {w : Network} {f : Nat} {k : List Nat}
    (h1 : k ≠ (LookupKey.activeVotes w).to_bytes)
    (h2 : k ≠ (LookupKey.concludedVotes w).to_bytes) :
    (register_concluded_vote s w f).2 k = s k := by
  unfold register_concluded_vote
  dsimp only
  cases hc : concludedRead (remove_active_vote s w f) w with
  | error e => exact remove_active_vote_other h1
  | ok cur =>
    dsimp only
    rw [setK_other _ _ h2]
    exact remove_active_vote_other h1

theorem rcv_active_same (s : Store) (w : Network) (f : Nat) :
    activeListRaw (register_concluded_vote s w f).2 w
      = (activeListRaw s w).filter (fun x => x != f) := by
  unfold register_concluded_vote
  dsimp only
  cases hc : concludedRead (remove_active_vote s w f) w with
  | error e => exact remove_active_vote_active_same s w f
  | ok cur =>
    dsimp only
    rw [activeListRaw_congr (setK_other _ _ (active_ne_concluded_key w w))]
    exact remove_active_vote_active_same s w f

theorem rcv_active_other {s : Store} {w w1 : Network} {f : Nat} (h : w1 ≠ w) :
    activeListRaw (register_concluded_vote s w f).2 w1 = activeListRaw s w1 := by
  unfold register_concluded_vote
  dsimp only
  cases hc : concludedRead (remove_active_vote s w f) w with
  | error e => exact remove_active_vote_active_other h
  | ok cur =>
    dsimp only
    rw [activeListRaw_congr (setK_other _ _ (active_ne_concluded_key w1 w))]
    exact remove_active_vote_active_other h

theorem rcv_concluded_other {s : Store} {w w1 : Network} {f : Nat}
    (h : w1 ≠ w) :
    concludedList (register_concluded_vote s w f).2 w1 = concludedList s w1 := by
  unfold register_concluded_vote
  dsimp only
  cases hc : concludedRead (remove_active_vote s w f) w with
  | error e =>
    exact concludedList_congr
      (remove_active_vote_other (active_ne_concluded_key w w1).symm)
  | ok cur =>
    dsimp only
    rw [concludedList_congr (setK_other _ _ (concluded_key_ne_of_ne h))]
    exact concludedList_congr
      (remove_active_vote_other (active_ne_concluded_key w w1).symm)

theorem rcv_concluded_same (s : Store) (w : Network) (f : Nat) :
    concludedList (register_concluded_vote s w f).2 w = concludedList s w ∨
    concludedList (register_concluded_vote s w f).2 w
      = concludedList s w ++ [f] := by
  unfold register_concluded_vote
  dsimp only
  cases hc : concludedRead (remove_active_vote s w f) w with
  | error e =>
    exact .inl (concludedList_congr
      (remove_active_vote_other (active_ne_concluded_key w w).symm))
  | ok cur =>
    right
    dsimp only
    have hcs : concludedList (remove_active_vote s w f) w = concludedList s w :=
      concludedList_congr
        (remove_active_vote_other (active_ne_concluded_key w w).symm)
    have hcur : cur = concludedList s w :=
      (concludedRead_ok_eq hc).symm.trans hcs
    simp only [concludedList, setK_self]
    rw [hcur]
    rfl

theorem rcv_ts (s : Store) (w : Network) (f f1 : Nat) (w1 : Network) :
    (register_concluded_vote s w f).2 (LookupKey.timestamp f1 w1).to_bytes
      = s (LookupKey.timestamp f1 w1).to_bytes :=
  rcv_other (timestamp_ne_active_key f1 w1 w) (timestamp_ne_concluded_key f1 w1 w)

theorem rcv_preserves_inv {s : Store} {w : Network} {f : Nat}
    (hinv : IndexInv s)
    (hts : (s (LookupKey.timestamp f w).to_bytes).isSome) :
    IndexInv (register_concluded_vote s w f).2 := by
  constructor
  · intro w1 f1 hmem
    rw [rcv_ts]
    by_cases hw : w1 = w
    · subst hw
      rcases rcv_concluded_same s w1 f with hsame | happ
      · exact hinv.1 w1 f1 (hsame ▸ hmem)
      · rw [happ, List.mem_append, List.mem_singleton] at hmem
        rcases hmem with hm | hm
        · exact hinv.1 w1 f1 hm
        · exact hm ▸ hts
    · rw [rcv_concluded_other hw] at hmem
      exact hinv.1 w1 f1 hmem
  · intro w1 f1 ⟨hA, hC⟩
    by_cases hw : w1 = w
    · subst hw
      rw [rcv_active_same] at hA
      rw [mem_filter_bne] at hA
      rcases rcv_concluded_same s w1 f with hsame | happ
      · exact hinv.2 w1 f1 ⟨hA.1, hsame ▸ hC⟩
      · rw [happ, List.mem_append, List.mem_singleton] at hC
        rcases hC with hm | hm
        · exact hinv.2 w1 f1 ⟨hA.1, hm⟩
        · exact hA.2 hm
    · rw [rcv_active_other hw] at hA
      rw [rcv_concluded_other hw] at hC
      exact hinv.2 w1 f1 ⟨hA, hC⟩

theorem rcv_concluded_mono {s : Store} {w w1 : Network} {f f1 : Nat}
    (h : f1 ∈ concludedList s w1) :
    f1 ∈ concludedList (register_concluded_vote s w f).2 w1 := by
  by_cases hw : w1 = w
  · subst hw
    rcases rcv_concluded_same s w1 f with hsame | happ
    · exact hsame ▸ h
    · rw [happ, List.mem_append]; exact .inl h
  · rw [rcv_concluded_other hw]; exact h

theorem rcv_active_sub {s : Store} {w w1 : Network} {f f1 : Nat}
    (h : f1 ∈ activeListRaw (register_concluded_vote s w f).2 w1) :
    f1 ∈ activeListRaw s w1 := by
  by_cases hw : w1 = w
  · subst hw
    rw [rcv_active_same] at h
    exact (mem_filter_bne.mp h).1
  · rw [rcv_active_other hw] at h
    exact h

/-! ### Sweep lemmas -/

theorem sweep_other {now len : Nat} {w : Network} {fips : List Nat}
    {s : Store} {k : List Nat}
    (h1 : k ≠ (LookupKey.activeVotes w).to_bytes)
    (h2 : k ≠ (LookupKey.concludedVotes w).to_bytes) :
    (sweepActive now len w s fips).2 k = s k := by
  induction fips generalizing s with
  | nil => rfl
  | cons fip rest ih =>
    simp only [sweepActive]
    cases hv : vote_start s fip w with
    | error e => rfl
    | ok t =>
      dsimp only
      by_cases hlt : now - t < len
      · rw [if_pos hlt]
        cases hres : sweepActive now len w s rest with
        | mk r s1 =>
          have hrec := ih (s := s)
          rw [hres] at hrec
          cases r <;> exact hrec
      · rw [if_neg hlt]
        cases hrcv : register_concluded_vote s w fip with
        | mk r s1 =>
          have hstep := rcv_other (s := s) (w := w) (f := fip) h1 h2
          rw [hrcv] at hstep
          cases r with
          | error e => exact hstep
          | ok u => rw [ih (s := s1)]; exact hstep

theorem sweep_ts {now len : Nat} {w : Network} {fips : List Nat} {s : Store}
    (f1 : Nat) (w1 : Network) :
    (sweepActive now len w s fips).2 (LookupKey.timestamp f1 w1).to_bytes
      = s (LookupKey.timestamp f1 w1).to_bytes :=
  sweep_other (timestamp_ne_active_key f1 w1 w)
    (timestamp_ne_concluded_key f1 w1 w)

theorem sweep_preserves_inv {now len : Nat} {w : Network} {fips : List Nat} :
    ∀ {s : Store}, IndexInv s → IndexInv (sweepActive now len w s fips).2 := by
  induction fips with
  | nil => intro s h; exact h
  | cons fip rest ih =>
    intro s hinv
    simp only [sweepActive]
    cases hv : vote_start s fip w with
    | error e => exact hinv
    | ok t =>
      dsimp only
      by_cases hlt : now - t < len
      · rw [if_pos hlt]
        cases hres : sweepActive now len w s rest with
        | mk r s1 =>
          have hrec := ih hinv
          rw [hres] at hrec
          cases r <;> exact hrec
      · rw [if_neg hlt]
        cases hrcv : register_concluded_vote s w fip with
        | mk r s1 =>
          have hinv1 : IndexInv s1 := by
            have := rcv_preserves_inv hinv (vote_start_ok_isSome hv)
            rw [hrcv] at this
            exact this
          cases r with
          | error e => exact hinv1
          | ok u => exact ih hinv1

theorem sweep_active_sub {now len : Nat} {w w1 : Network} {fips : List Nat}
    {f1 : Nat} :
    ∀ {s : Store}, f1 ∈ activeListRaw (sweepActive now len w s fips).2 w1 →
      f1 ∈ activeListRaw s w1 := by
  induction fips with
  | nil => intro s h; exact h
  | cons fip rest ih =>
    intro s h
    simp only [sweepActive] at h
    cases hv : vote_start s fip w with
    | error e => rw [hv] at h; exact h
    | ok t =>
      rw [hv] at h
      dsimp only at h
      by_cases hlt : now - t < len
      · rw [if_pos hlt] at h
        cases hres : sweepActive now len w s rest with
        | mk r s1 =>
          rw [hres] at h
          have hrec := @ih s
          rw [hres] at hrec
          cases r <;> exact hrec h
      · rw [if_neg hlt] at h
        cases hrcv : register_concluded_vote s w fip with
        | mk r s1 =>
          rw [hrcv] at h
          have hstep : f1 ∈ activeListRaw s1 w1 → f1 ∈ activeListRaw s w1 := by
            intro hm
            refine rcv_active_sub (w := w) (f := fip) ?_
            rw [hrcv]
            exact hm
          cases r with
          | error e => exact hstep h
          | ok u => exact hstep (ih h)

theorem sweep_concluded_mono {now len : Nat} {w w1 : Network}
    {fips : List Nat} {f1 : Nat} :
    ∀ {s : Store}, f1 ∈ concludedList s w1 →
      f1 ∈ concludedList (sweepActive now len w s fips).2 w1 := by
  induction fips with
  | nil => intro s h; exact h
  | cons fip rest ih =>
    intro s h
    simp only [sweepActive]
    cases hv : vote_start s fip w with
    | error e => exact h
    | ok t =>
      dsimp only
      by_cases hlt : now - t < len
      · rw [if_pos hlt]
        cases hres : sweepActive now len w s rest with
        | mk r s1 =>
          have hrec := ih h
          rw [hres] at hrec
          cases r <;> exact hrec
      · rw [if_neg hlt]
        cases hrcv : register_concluded_vote s w fip with
        | mk r s1 =>
          have hstep : f1 ∈ concludedList s1 w1 := by
            have := rcv_concluded_mono (w := w) (f := fip) h
            rw [hrcv] at this
            exact this
          cases r with
          | error e => exact hstep
          | ok u => exact ih hstep

theorem sweep_output_subset {now len : Nat} {w : Network} :
    ∀ {fips : List Nat} {s : Store} {l : List Nat},
      (sweepActive now len w s fips).1 = .ok l → l ⊆ fips := by
  intro fips
  induction fips with
  | nil =>
    intro s l h
    simp only [sweepActive, Except.ok.injEq] at h
    rw [← h]
    exact List.nil_subset _
  | cons fip rest ih =>
    intro s l h
    simp only [sweepActive] at h
    cases hv : vote_start s fip w with
    | error e => rw [hv] at h; simp at h
    | ok t =>
      rw [hv] at h
      dsimp only at h
      by_cases hlt : now - t < len
      · rw [if_pos hlt] at h
        cases hres : sweepActive now len w s rest with
        | mk r s1 =>
          rw [hres] at h
          cases r with
          | error e => simp at h
          | ok l1 =>
            simp only [Except.ok.injEq] at h
            rw [← h]
            have : l1 ⊆ rest := by
              have := @ih s l1
              rw [hres] at this
              exact this rfl
            exact List.cons_subset_cons fip this
      · rw [if_neg hlt] at h
        cases hrcv : register_concluded_vote s w fip with
        | mk r s1 =>
          rw [hrcv] at h
          cases r with
          | error e => simp at h
          | ok u =>
            exact List.Subset.trans (ih h) (List.subset_cons_self fip rest)

/-! ### start_vote lemmas -/

theorem start_vote_fst_ne_ok_of_isSome {boot : List Addr} {now : Nat}
    {s : Store} {f : Nat} {a : Addr} {w : Network}
    (hts : (s (LookupKey.timestamp f w).to_bytes).isSome) :
    (start_vote boot now s f a w).1 ≠ .ok () := by
  unfold start_vote
  cases hv : voter_starters s w with
  | error e => simp
  | ok starters =>
    dsimp only
    by_cases hauth : a ∉ starters ∧ a ∉ boot
    · rw [if_pos hauth]; simp
    · rw [if_neg hauth, if_pos hts]; simp

theorem register_active_vote_concluded (s : Store) (w w1 : Network) (f : Nat) :
    concludedList (register_active_vote s w f) w1 = concludedList s w1 := by
  unfold register_active_vote
  exact concludedList_congr (setK_other _ _ (active_ne_concluded_key w w1).symm)

theorem register_active_vote_ts (s : Store) (w : Network) (f f1 : Nat)
    (w1 : Network) :
    (register_active_vote s w f) (LookupKey.timestamp f1 w1).to_bytes
      = s (LookupKey.timestamp f1 w1).to_bytes := by
  unfold register_active_vote
  exact setK_other _ _ (timestamp_ne_active_key f1 w1 w)

theorem register_active_vote_active_same (s : Store) (w : Network) (f : Nat) :
    activeListRaw (register_active_vote s w f) w = activeListRaw s w ++ [f] := by
  unfold register_active_vote
  simp [activeListRaw, setK_self]

theorem register_active_vote_active_other {s : Store} {w w1 : Network} {f : Nat}
    (h : w1 ≠ w) :
    activeListRaw (register_active_vote s w f) w1 = activeListRaw s w1 := by
  unfold register_active_vote
  exact activeListRaw_congr (setK_other _ _ (active_key_ne_of_ne h))

theorem setK_ts_active (s : Store) (f : Nat) (w : Network) (v : Val)
    (w1 : Network) :
    activeListRaw (setK s (LookupKey.timestamp f w).to_bytes v) w1
      = activeListRaw s w1 :=
  activeListRaw_congr (setK_other _ _ (timestamp_ne_active_key f w w1).symm)

theorem setK_ts_concluded (s : Store) (f : Nat) (w : Network) (v : Val)
    (w1 : Network) :
    concludedList (setK s (LookupKey.timestamp f w).to_bytes v) w1
      = concludedList s w1 :=
  concludedList_congr (setK_other _ _ (timestamp_ne_concluded_key f w w1).symm)

theorem start_vote_preserves_inv {boot : List Addr} {now : Nat} {s : Store}
    {f : Nat} {a : Addr} {w : Network} (hinv : IndexInv s) :
    IndexInv (start_vote boot now s f a w).2 := by
  unfold start_vote
  cases hv : voter_starters s w with
  | error e => exact hinv
  | ok starters =>
    dsimp only
    by_cases hauth : a ∉ starters ∧ a ∉ boot
    · rw [if_pos hauth]; exact hinv
    · rw [if_neg hauth]
      by_cases hts : (s (LookupKey.timestamp f w).to_bytes).isSome = true
      · rw [if_pos hts]; exact hinv
      · rw [if_neg hts]
        dsimp only
        have hnone : s (LookupKey.timestamp f w).to_bytes = none :=
          Option.not_isSome_iff_eq_none.mp hts
        constructor
        · intro w1 f1 hmem
          rw [register_active_vote_concluded, setK_ts_concluded] at hmem
          rw [register_active_vote_ts, ]
          exact isSome_setK (hinv.1 w1 f1 hmem)
        · intro w1 f1 hAC
          obtain ⟨hA, hC⟩ := hAC
          rw [register_active_vote_concluded, setK_ts_concluded] at hC
          by_cases hw : w1 = w
          · subst hw
            rw [register_active_vote_active_same, setK_ts_active] at hA
            rw [List.mem_append, List.mem_singleton] at hA
            rcases hA with hm | hm
            · exact hinv.2 w1 f1 ⟨hm, hC⟩
            · subst hm
              have := hinv.1 w1 f1 hC
              rw [hnone] at this
              simp at this
          · rw [register_active_vote_active_other hw, setK_ts_active] at hA
            exact hinv.2 w1 f1 ⟨hA, hC⟩

theorem start_vote_preserves_concludedState {boot : List Addr} {now : Nat}
    {s : Store} {f f0 : Nat} {a : Addr} {w w0 : Network}
    (h : ConcludedState s f0 w0) :
    ConcludedState (start_vote boot now s f a w).2 f0 w0 := by
  obtain ⟨hA0, hC0, hT0⟩ := h
  unfold start_vote
  cases hv : voter_starters s w with
  | error e => exact ⟨hA0, hC0, hT0⟩
  | ok starters =>
    dsimp only
    by_cases hauth : a ∉ starters ∧ a ∉ boot
    · rw [if_pos hauth]; exact ⟨hA0, hC0, hT0⟩
    · rw [if_neg hauth]
      by_cases hts : (s (LookupKey.timestamp f w).to_bytes).isSome = true
      · rw [if_pos hts]; exact ⟨hA0, hC0, hT0⟩
      · rw [if_neg hts]
        dsimp only
        have hnone : s (LookupKey.timestamp f w).to_bytes = none :=
          Option.not_isSome_iff_eq_none.mp hts
        refine ⟨?_, ?_, ?_⟩
        · by_cases hw : w0 = w
          · subst hw
            rw [register_active_vote_active_same, setK_ts_active]
            rw [List.mem_append, List.mem_singleton]
            rintro (hm | hm)
            · exact hA0 hm
            · subst hm
              rw [hnone] at hT0
              simp at hT0
          · rw [register_active_vote_active_other hw, setK_ts_active]
            exact hA0
        · rw [register_active_vote_concluded, setK_ts_concluded]
          exact hC0
        · rw [register_active_vote_ts]
          exact isSome_setK hT0

/-! ### Operations that do not touch the lifecycle tables -/

theorem adminSame_refl (s : Store) : AdminSame s s :=
  ⟨fun _ => rfl, fun _ => rfl, fun _ _ => rfl⟩

theorem inv_of_adminSame {s s1 : Store} (hAS : AdminSame s s1)
    (hinv : IndexInv s) : IndexInv s1 := by
  obtain ⟨hA, hC, hT⟩ := hAS
  constructor
  · intro w f hmem
    rw [hT f w]
    exact hinv.1 w f ((concludedList_congr (hC w)) ▸ hmem)
  · intro w f hAC
    obtain ⟨h1, h2⟩ := hAC
    rw [activeListRaw_congr (hA w)] at h1
    rw [concludedList_congr (hC w)] at h2
    exact hinv.2 w f ⟨h1, h2⟩

theorem concludedState_of_adminSame {s s1 : Store} {f : Nat} {w : Network}
    (hAS : AdminSame s s1) (h : ConcludedState s f w) :
    ConcludedState s1 f w := by
  obtain ⟨hA, hC, hT⟩ := hAS
  exact ⟨by rw [activeListRaw_congr (hA w)]; exact h.1,
         by rw [concludedList_congr (hC w)]; exact h.2.1,
         by rw [hT f w]; exact h.2.2⟩

theorem adminSame_register_voter (s : Store) (a : Addr) (w : Network)
    (ids : List Nat) : AdminSame s (register_voter s a w ids) := by
  unfold register_voter
  refine ⟨fun w1 => ?_, fun w1 => ?_, fun f1 w1 => ?_⟩
  · rw [setK_other _ _ (voter_ne_active_key w w1 a).symm,
      setK_other _ _ (network_ne_active_key a w1).symm]
  · rw [setK_other _ _ (voter_ne_concluded_key w w1 a).symm,
      setK_other _ _ (network_ne_concluded_key a w1).symm]
  · rw [setK_other _ _ (voter_ne_timestamp_key w w1 a f1).symm,
      setK_other _ _ (network_ne_timestamp_key a w1 f1).symm]

theorem adminSame_unregister_voter (s : Store) (a : Addr) (w : Network) :
    AdminSame s (unregister_voter s a w) := by
  unfold unregister_voter
  refine ⟨fun w1 => ?_, fun w1 => ?_, fun f1 w1 => ?_⟩
  · rw [delK_other _ (voter_ne_active_key w w1 a).symm,
      delK_other _ (network_ne_active_key a w1).symm]
  · rw [delK_other _ (voter_ne_concluded_key w w1 a).symm,
      delK_other _ (network_ne_concluded_key a w1).symm]
  · rw [delK_other _ (voter_ne_timestamp_key w w1 a f1).symm,
      delK_other _ (network_ne_timestamp_key a w1 f1).symm]

theorem adminSame_register_voter_starter (s : Store) (a : Addr) (w : Network) :
    AdminSame s (register_voter_starter s a w).2 := by
  unfold register_voter_starter
  cases hv : voter_starters s w with
  | error e => exact adminSame_refl s
  | ok cur =>
    dsimp only
    refine ⟨fun w1 => ?_, fun w1 => ?_, fun f1 w1 => ?_⟩
    · exact setK_other _ _ (starters_ne_active_key w w1).symm
    · exact setK_other _ _ (starters_ne_concluded_key w w1).symm
    · exact setK_other _ _ (timestamp_ne_starters_key f1 w1 w)

theorem adminSame_remove_voter_starters (s : Store) (a : Addr) (w : Network) :
    AdminSame s (remove_voter_starters s a w).2 := by
  unfold remove_voter_starters
  cases hv : voter_starters s w with
  | error e => exact adminSame_refl s
  | ok cur =>
    dsimp only
    by_cases hm : a ∈ cur
    · rw [if_pos hm]
      dsimp only
      refine ⟨fun w1 => ?_, fun w1 => ?_, fun f1 w1 => ?_⟩
      · exact setK_other _ _ (starters_ne_active_key w w1).symm
      · exact setK_other _ _ (starters_ne_concluded_key w w1).symm
      · exact setK_other _ _ (timestamp_ne_starters_key f1 w1 w)
    · rw [if_neg hm]
      exact adminSame_refl s

theorem adminSame_add_vote (o : Oracle) (s : Store) (f : Nat) (v : Vote)
    (a : Addr) : AdminSame s (add_vote o s f v a).2 := by
  unfold add_vote
  cases hn : networkGet s a with
  | error e => exact adminSame_refl s
  | ok w =>
    dsimp only
    by_cases h1 : f ∉ activeListRaw s w
    · rw [if_pos h1]; exact adminSame_refl s
    · rw [if_neg h1]
      by_cases h2 : (voter_delegates s a w).isEmpty = true
      · rw [if_pos h2]; exact adminSame_refl s
      · rw [if_neg h2]
        by_cases h3 : ((votesGet s f w).any fun y => voteEq y v) = true
        · rw [if_pos h3]; exact adminSame_refl s
        · rw [if_neg h3]
          cases hloop : addStorageLoop o w v.choice f s (voter_delegates s a w) with
          | mk r s1 =>
            have hs1 : ∀ k, k ≠ (LookupKey.storage v.choice w f).to_bytes →
                s1 k = s k := by
              intro k hk
              have := addStorageLoop_other_key o w v.choice f
                (voter_delegates s a w) s hk
              rw [hloop] at this
              exact this
            cases r with
            | error e =>
              dsimp only
              exact ⟨fun w1 => hs1 _ (storage_ne_active_key v.choice w w1 f).symm,
                fun w1 => hs1 _ (storage_ne_concluded_key v.choice w w1 f).symm,
                fun f1 w1 => hs1 _ (storage_ne_timestamp_key v.choice w w1 f f1).symm⟩
            | ok u =>
              dsimp only
              refine ⟨fun w1 => ?_, fun w1 => ?_, fun f1 w1 => ?_⟩
              · rw [setK_other _ _ (votes_ne_active_key f w w1).symm]
                exact hs1 _ (storage_ne_active_key v.choice w w1 f).symm
              · rw [setK_other _ _ (votes_ne_concluded_key f w w1).symm]
                exact hs1 _ (storage_ne_concluded_key v.choice w w1 f).symm
              · rw [setK_other _ _ (votes_ne_timestamp_key w w1 f f1).symm]
                exact hs1 _ (storage_ne_timestamp_key v.choice w w1 f f1).symm

/-! ### The state after the read-only (but side-effecting) queries -/

theorem active_votes_none_snd (now : Nat) (s : Store) (w : Network) :
    (active_votes now s w none).2 = s := rfl

theorem active_votes_some_snd (now : Nat) (s : Store) (w : Network)
    (len : Nat) :
    (active_votes now s w (some len)).2
      = (sweepActive now len w s (activeListRaw s w)).2 := rfl

theorem vote_status_snd (now : Nat) (s : Store) (f vlen : Nat) (w : Network) :
    (vote_status now s f vlen w).2 = s ∨
    (vote_status now s f vlen w).2
      = (sweepActive now vlen w s (activeListRaw s w)).2 := by
  unfold vote_status
  by_cases h : (s (LookupKey.timestamp f w).to_bytes).isNone = true
  · rw [if_pos h]; exact .inl rfl
  · rw [if_neg h]
    cases hav : active_votes now s w (some vlen) with
    | mk r s1 =>
      have hs1 : s1 = (sweepActive now vlen w s (activeListRaw s w)).2 := by
        have := congrArg Prod.snd hav
        rw [active_votes_some_snd] at this
        exact this.symm
      cases r with
      | error e => exact .inr hs1
      | ok act =>
        dsimp only
        by_cases hm : f ∈ act
        · rw [if_pos hm]
          cases hvs : vote_start s1 f w with
          | error e => exact .inr hs1
          | ok t => exact .inr hs1
        · rw [if_neg hm]
          exact .inr hs1

/-! ### The reachability invariant -/

theorem applyOp_preserves_inv (op : Op) {s : Store} (hinv : IndexInv s) :
    IndexInv (applyOp op s) := by
  cases op with
  | opStartVote b n f a w => exact start_vote_preserves_inv hinv
  | opAddVote o f v a => exact inv_of_adminSame (adminSame_add_vote o s f v a) hinv
  | opVoteStatus n f l w =>
    rcases vote_status_snd n s f l w with h | h <;>
      (show IndexInv (vote_status n s f l w).2; rw [h])
    · exact hinv
    · exact sweep_preserves_inv hinv
  | opActiveVotes n w vl =>
    cases vl with
    | none => exact hinv
    | some len =>
      show IndexInv (active_votes n s w (some len)).2
      rw [active_votes_some_snd]
      exact sweep_preserves_inv hinv
  | opConcludedVotes w => exact hinv
  | opRegisterVoter a w ids =>
    exact inv_of_adminSame (adminSame_register_voter s a w ids) hinv
  | opUnregisterVoter a w =>
    exact inv_of_adminSame (adminSame_unregister_voter s a w) hinv
  | opRegisterVoterStarter a w =>
    exact inv_of_adminSame (adminSame_register_voter_starter s a w) hinv
  | opRemoveVoterStarters a w =>
    exact inv_of_adminSame (adminSame_remove_voter_starters s a w) hinv

theorem emptyStore_inv : IndexInv emptyStore := by
  constructor
  · intro w f hm
    simp [concludedList, emptyStore] at hm
  · intro w f hAC
    obtain ⟨h1, -⟩ := hAC
    simp [activeListRaw, emptyStore] at h1

theorem reachable_inv {s : Store} (h : Reachable s) : IndexInv s := by
  induction h with
  | init => exact emptyStore_inv
  | step op hr ih => exact applyOp_preserves_inv op ih

theorem sweep_preserves_concludedState {now len : Nat} {w w0 : Network}
    {fips : List Nat} {s : Store} {f0 : Nat}
    (h : ConcludedState s f0 w0) :
    ConcludedState (sweepActive now len w s fips).2 f0 w0 :=
  ⟨fun hmem => h.1 (sweep_active_sub hmem),
   sweep_concluded_mono h.2.1,
   by rw [sweep_ts]; exact h.2.2⟩

theorem applyOp_preserves_concludedState (op : Op) {s : Store} {f0 : Nat}
    {w0 : Network} (h : ConcludedState s f0 w0) :
    ConcludedState (applyOp op s) f0 w0 := by
  cases op with
  | opStartVote b n f a w => exact start_vote_preserves_concludedState h
  | opAddVote o f v a =>
    exact concludedState_of_adminSame (adminSame_add_vote o s f v a) h
  | opVoteStatus n f l w =>
    rcases vote_status_snd n s f l w with he | he <;>
      (show ConcludedState (vote_status n s f l w).2 f0 w0; rw [he])
    · exact h
    · exact sweep_preserves_concludedState h
  | opActiveVotes n w vl =>
    cases vl with
    | none => exact h
    | some len =>
      show ConcludedState (active_votes n s w (some len)).2 f0 w0
      rw [active_votes_some_snd]
      exact sweep_preserves_concludedState h
  | opConcludedVotes w => exact h
  | opRegisterVoter a w ids =>
    exact concludedState_of_adminSame (adminSame_register_voter s a w ids) h
  | opUnregisterVoter a w =>
    exact concludedState_of_adminSame (adminSame_unregister_voter s a w) h
  | opRegisterVoterStarter a w =>
    exact concludedState_of_adminSame (adminSame_register_voter_starter s a w) h
  | opRemoveVoterStarters a w =>
    exact concludedState_of_adminSame (adminSame_remove_voter_starters s a w) h

theorem steps_preserve_concludedState {s s1 : Store} {f0 : Nat} {w0 : Network}
    (h : ConcludedState s f0 w0)
    (hsteps : Relation.ReflTransGen StepRel s s1) :
    ConcludedState s1 f0 w0 := by
  induction hsteps with
  | refl => exact h
  | tail hab hbc ih =>
    obtain ⟨op, rfl⟩ := hbc
    exact applyOp_preserves_concludedState op ih

theorem vote_status_never_inProgress_of_notActive {now : Nat} {s : Store}
    {f vlen : Nat} {w : Network} (hA : f ∉ activeListRaw s w) :
    ∀ r, (vote_status now s f vlen w).1 ≠ .ok (.inProgress r) := by
  intro r
  unfold vote_status
  by_cases h : (s (LookupKey.timestamp f w).to_bytes).isNone = true
  · rw [if_pos h]; simp
  · rw [if_neg h]
    cases hav : active_votes now s w (some vlen) with
    | mk res s1 =>
      cases res with
      | error e => simp
      | ok act =>
        dsimp only
        have hsub : act ⊆ activeListRaw s w := by
          have h1 : (active_votes now s w (some vlen)).1 = .ok act := by
            rw [hav]
          rw [active_votes] at h1
          exact sweep_output_subset h1
        have hnm : f ∉ act := fun hm => hA (hsub hm)
        rw [if_neg hnm]
        simp

/-! ### Claim theorems -/

/-- Claim C1: the key encoding of `LookupKey::to_bytes` was claimed
injective across all tables, networks, proposal numbers and
addresses.  It is not: the storage-totals discriminant
`choice_code * (network+1)` collides, because Abstain on Mainnet
gives `4 * 1 = 4` and Yay on Testnet gives `2 * 2 = 4`, so the two
distinct logical tuples `Storage(Abstain, Mainnet, 1)` and
`Storage(Yay, Testnet, 1)` encode to the same byte key
`[0,0,0,1,4]`. -/
theorem C1_key_collision :
    LookupKey.to_bytes (.storage .abstain .mainnet 1)
      = LookupKey.to_bytes (.storage .yay .testnet 1) ∧
    (LookupKey.storage .abstain .mainnet 1) ≠ LookupKey.storage .yay .testnet 1
    := by decide

theorem add_vote_ok_decomp {o : Oracle} {s : Store} {f : Nat} {v : Vote}
    {a : Addr} {w : Network} (hn : networkGet s a = .ok w)
    (h : (add_vote o s f v a).1 = .ok ()) :
    f ∈ activeListRaw s w ∧
    voter_delegates s a w ≠ [] ∧
    ((votesGet s f w).any fun y => voteEq y v) = false ∧
    votesGet (add_vote o s f v a).2 f w = votesGet s f w ++ [v] ∧
    (∀ k, k ≠ (LookupKey.storage v.choice w f).to_bytes →
      k ≠ (LookupKey.votes f w).to_bytes → (add_vote o s f v a).2 k = s k) := by
  unfold add_vote at h ⊢
  rw [hn] at h ⊢
  dsimp only at h ⊢
  by_cases hact : f ∉ activeListRaw s w
  · rw [if_pos hact] at h; simp at h
  · rw [if_neg hact] at h ⊢
    by_cases hd : (voter_delegates s a w).isEmpty = true
    · rw [if_pos hd] at h; simp at h
    · rw [if_neg hd] at h ⊢
      by_cases hdup : ((votesGet s f w).any fun y => voteEq y v) = true
      · rw [if_pos hdup] at h; simp at h
      · rw [if_neg hdup] at h ⊢
        cases hloop : addStorageLoop o w v.choice f s (voter_delegates s a w) with
        | mk r s1 =>
          rw [hloop] at h
          cases r with
          | error e => exact Except.noConfusion h
          | ok u =>
            dsimp only at h ⊢
            refine ⟨not_not.mp hact,
              fun he => hd (by rw [he]; rfl),
              Bool.eq_false_iff.mpr hdup, ?_, ?_⟩
            · simp only [votesGet, setK_self]
            · intro k hk1 hk2
              rw [setK_other _ _ hk2]
              have := addStorageLoop_other_key o w v.choice f
                (voter_delegates s a w) s hk1
              rw [hloop] at this
              exact this

/-- Claim C2: a second `add_vote` whose vote carries the same
`(voter_address, proposal_number)` pair as an already admitted vote
(even with a different choice) fails with the duplicate-vote error,
the store is left exactly as the first call left it, and exactly one
vote equal (in the `(address, fip)` sense) to the first vote is
stored in the proposal's vote list. -/
theorem C2_duplicate_rejection (o1 o2 : Oracle) (s : Store) (n : Nat)
    (v1 v2 : Vote) (w : Network)
    (hn : networkGet s v1.address = .ok w)
    (h1 : (add_vote o1 s n v1 v1.address).1 = .ok ())
    (haddr : v2.address = v1.address) (hfip : v2.fip = v1.fip) :
    add_vote o2 (add_vote o1 s n v1 v1.address).2 n v2 v2.address
      = (.error .duplicateVote, (add_vote o1 s n v1 v1.address).2) ∧
    ((votesGet (add_vote o1 s n v1 v1.address).2 n w).filter
      (fun y => voteEq y v1)).length = 1 := by
  obtain ⟨hact, hd, hdup, hlist, hpres⟩ := add_vote_ok_decomp hn h1
  have hn2 : networkGet (add_vote o1 s n v1 v1.address).2 v2.address = .ok w := by
    rw [haddr]
    rw [networkGet_congr (hpres _ (storage_ne_network_key v1.choice w n _).symm
      (votes_ne_network_key n w _).symm)]
    exact hn
  have hact2 : n ∈ activeListRaw (add_vote o1 s n v1 v1.address).2 w := by
    rw [activeListRaw_congr (hpres _ (storage_ne_active_key v1.choice w w n).symm
      (votes_ne_active_key n w w).symm)]
    exact hact
  have hd2 : voter_delegates (add_vote o1 s n v1 v1.address).2 v2.address w ≠ [] := by
    rw [haddr]
    rw [voter_delegates_congr (hpres _ (storage_ne_voter_key v1.choice w w n _).symm
      (votes_ne_voter_key n w w _).symm)]
    exact hd
  have hveq : voteEq v1 v2 = true := by
    simp [voteEq, haddr, hfip]
  have hdup2 : ((votesGet (add_vote o1 s n v1 v1.address).2 n w).any
      fun y => voteEq y v2) = true := by
    rw [hlist]
    rw [List.any_eq_true]
    exact ⟨v1, by simp, hveq⟩
  refine ⟨add_vote_dup_char hn2 hact2 hd2 hdup2, ?_⟩
  rw [hlist, List.filter_append]
  have hnil : (votesGet s n w).filter (fun y => voteEq y v1) = [] := by
    rw [List.filter_eq_nil_iff]
    intro y hy
    exact List.any_eq_false.mp hdup y hy
  rw [hnil]
  simp [voteEq]

/-- Claim C2 witness: a concrete duplicate-vote scenario. -/
theorem C2_witness :
    networkGet sC2 vC2a.address = .ok .testnet ∧
    (add_vote oC2 sC2 1 vC2a vC2a.address).1 = .ok () ∧
    add_vote oC2 (add_vote oC2 sC2 1 vC2a vC2a.address).2 1 vC2b vC2b.address
      = (.error .duplicateVote, (add_vote oC2 sC2 1 vC2a vC2a.address).2) ∧
    ((votesGet (add_vote oC2 sC2 1 vC2a vC2a.address).2 1 .testnet).filter
      (fun y => voteEq y vC2a)).length = 1 :=
  ⟨by decide, by decide,
    (C2_duplicate_rejection oC2 oC2 sC2 1 vC2a vC2b .testnet
      (by decide) (by decide) (by decide) (by decide)).1,
    (C2_duplicate_rejection oC2 oC2 sC2 1 vC2a vC2b .testnet
      (by decide) (by decide) (by decide) (by decide)).2⟩

/-- Claim C3 counterexample: proposal 1 on Testnet started at
timestamp 0 and is still in the stored ActiveIndex; at now = 100
with vote duration 60 the elapsed time (100) has exceeded the
duration, yet `add_vote` — which reads the active index with no
duration and performs no lazy re-evaluation — admits the vote and
moves nothing to the ConcludedIndex, instead of failing with the
vote-not-active error as the claim states. -/
theorem C3_counterexample :
    vote_start sC3 1 .testnet = .ok 0 ∧ 100 - 0 ≥ 60 ∧
    1 ∈ activeListRaw sC3 .testnet ∧
    (add_vote oC3 sC3 1 vC3 9).1 = .ok () ∧
    activeListRaw (add_vote oC3 sC3 1 vC3 9).2 .testnet = [1] ∧
    concludedList (add_vote oC3 sC3 1 vC3 9).2 .testnet = [] := by decide

/-- Claim C3 (amended): `add_vote` performs no time-based
re-evaluation at all: it reads the active index with no duration
(`active_votes(ntw, None)`), so it fails with the vote-not-active
error exactly when the proposal is absent from the stored
ActiveIndex — regardless of how much time has elapsed since the
start timestamp — and it never moves any proposal from the
ActiveIndex to the ConcludedIndex.  Proposals whose window has
elapsed but which no duration-supplying read has yet swept still
accept votes. -/
theorem C3_amended (o : Oracle) (s : Store) (f : Nat) (v : Vote) (a : Addr)
    (w : Network) (hn : networkGet s a = .ok w) :
    ((add_vote o s f v a).1 = .error .voteNotActive ↔ f ∉ activeListRaw s w) ∧
    (∀ w1, activeListRaw (add_vote o s f v a).2 w1 = activeListRaw s w1) ∧
    (∀ w1, concludedList (add_vote o s f v a).2 w1 = concludedList s w1) := by
  refine ⟨⟨?_, ?_⟩, ?_, ?_⟩
  · intro h
    by_contra hmem
    unfold add_vote at h
    rw [hn] at h
    dsimp only at h
    rw [if_neg (fun hc => hc hmem)] at h
    by_cases hd : (voter_delegates s a w).isEmpty = true
    · rw [if_pos hd] at h
      exact RErr.noConfusion (Except.error.inj h)
    · rw [if_neg hd] at h
      by_cases hdup : ((votesGet s f w).any fun y => voteEq y v) = true
      · rw [if_pos hdup] at h
        exact RErr.noConfusion (Except.error.inj h)
      · rw [if_neg hdup] at h
        cases hloop : addStorageLoop o w v.choice f s (voter_delegates s a w) with
        | mk r s1 =>
          rw [hloop] at h
          cases r with
          | ok u => exact Except.noConfusion h
          | error e =>
            have he : e = .voteNotActive := Except.error.inj h
            have hshape := addStorageLoop_error_shape
              (show (addStorageLoop o w v.choice f s
                (voter_delegates s a w)).1 = .error e by rw [hloop])
            rcases hshape with h1 | h1 <;>
              (rw [he] at h1; exact RErr.noConfusion h1)
  · intro h
    rw [add_vote_notActive_char hn h]
  · intro w1
    exact activeListRaw_congr ((adminSame_add_vote o s f v a).1 w1)
  · intro w1
    exact concludedList_congr ((adminSame_add_vote o s f v a).2.1 w1)

/-- Claim C3 (amended) witness: in the counterexample state the
vote-not-active error occurs exactly for proposals missing from the
ActiveIndex. -/
theorem C3_amended_witness :
    ((add_vote oC3 sC3 2 vC3 9).1 = .error .voteNotActive
      ↔ 2 ∉ activeListRaw sC3 .testnet) :=
  (C3_amended oC3 sC3 2 vC3 9 .testnet (by decide)).1

/-- Claim C4 counterexample: two registered voters with disjoint
provider sets `[6024]` and `[7]` on Testnet, oracle powers P1 = 100
and P2 = 50; both cast Yay on proposal 2 and both calls succeed,
but `vote_results` reports yay power 10240150, not P1 + P2 = 150,
because `add_storage` adds a hard-coded 10240000 bonus for provider
6024.  The yay count is 2 as claimed; the power equation is false. -/
theorem C4_counterexample :
    rawOracleSum oC4 .testnet [6024] = some 100 ∧
    rawOracleSum oC4 .testnet [7] = some 50 ∧
    voter_delegates sC4 11 .testnet = [6024] ∧
    voter_delegates sC4 12 .testnet = [7] ∧
    (add_vote oC4 sC4 2 vC4a 11).1 = .ok () ∧
    (add_vote oC4 (add_vote oC4 sC4 2 vC4a 11).2 2 vC4b 12).1 = .ok () ∧
    vote_results (add_vote oC4 (add_vote oC4 sC4 2 vC4a 11).2 2 vC4b 12).2
      2 .testnet = .ok ⟨2, 0, 0, 10240150, 0, 0⟩ ∧
    (100 + 50 : Nat) ≠ 10240150 := by decide

/-- Claim C4 (amended): for two registered voters with disjoint
provider sets, neither containing the special-cased provider id
6024, with oracle-reported power sums P1 and P2 whose total is in
u128 range, after both successfully cast Yay `vote_results` reports
yay power exactly P1 + P2 and yay count 2, the totals being read
from the persisted per-choice storage totals. -/
theorem C4_amended (o : Oracle) (s : Store) (n : Nat) (w : Network)
    (a1 a2 : Addr) (ids1 ids2 : List Nat) (P1 P2 cN cA : Nat)
    (haddr : a1 ≠ a2)
    (hdisj : ∀ i, i ∈ ids1 → i ∉ ids2)
    (h6a : 6024 ∉ ids1) (h6b : 6024 ∉ ids2)
    (hn1 : networkGet s a1 = .ok w) (hn2 : networkGet s a2 = .ok w)
    (hd1 : voter_delegates s a1 w = ids1) (hne1 : ids1 ≠ [])
    (hd2 : voter_delegates s a2 w = ids2) (hne2 : ids2 ≠ [])
    (hact : n ∈ activeListRaw s w)
    (hv : votesGet s n w = [])
    (hp1 : rawOracleSum o w ids1 = some P1)
    (hp2 : rawOracleSum o w ids2 = some P2)
    (hy : get_storage s n .yay w = .ok 0)
    (hnn : get_storage s n .nay w = .ok cN)
    (haa : get_storage s n .abstain w = .ok cA)
    (hlt : P1 + P2 < 2 ^ 128) :
    (add_vote o s n ⟨.yay, a1, n⟩ a1).1 = .ok () ∧
    (add_vote o (add_vote o s n ⟨.yay, a1, n⟩ a1).2 n ⟨.yay, a2, n⟩ a2).1
      = .ok () ∧
    vote_results
      (add_vote o (add_vote o s n ⟨.yay, a1, n⟩ a1).2 n ⟨.yay, a2, n⟩ a2).2
      n w = .ok ⟨2, 0, 0, P1 + P2, cN, cA⟩ := by
  have hsum1 : oracleSum o w (voter_delegates s a1 w) = some P1 := by
    rw [hd1, oracleSum_eq_raw h6a]
    exact hp1
  have hdup1 : ((votesGet s n w).any
      fun y => voteEq y (⟨.yay, a1, n⟩ : Vote)) = false := by
    rw [hv]
    rfl
  have hP1lt : P1 < 2 ^ 128 := lt_of_le_of_lt (Nat.le_add_right _ _) hlt
  have h0lt : (0 : Nat) < 2 ^ 128 := by positivity
  obtain ⟨r1ok, hlist1, hsto1, hpres1⟩ :=
    add_vote_ok_char (v := ⟨.yay, a1, n⟩) hn1 hact
      (by rw [hd1]; exact hne1) hdup1 hsum1 hy h0lt
  have hsto1A : get_storage (add_vote o s n ⟨.yay, a1, n⟩ a1).2 n .yay w
      = .ok P1 := by
    have : (0 + P1) % 2 ^ 128 = P1 := by
      rw [Nat.zero_add, Nat.mod_eq_of_lt hP1lt]
    rw [← this]
    exact hsto1
  have hn2A : networkGet (add_vote o s n ⟨.yay, a1, n⟩ a1).2 a2 = .ok w := by
    rw [networkGet_congr (hpres1 _ (storage_ne_network_key _ _ _ _).symm
      (votes_ne_network_key _ _ _).symm)]
    exact hn2
  have hd2A : voter_delegates (add_vote o s n ⟨.yay, a1, n⟩ a1).2 a2 w
      = ids2 := by
    rw [voter_delegates_congr (hpres1 _ (storage_ne_voter_key _ _ _ _ _).symm
      (votes_ne_voter_key _ _ _ _).symm)]
    exact hd2
  have hact2 : n ∈ activeListRaw (add_vote o s n ⟨.yay, a1, n⟩ a1).2 w := by
    rw [activeListRaw_congr (hpres1 _ (storage_ne_active_key _ _ _ _).symm
      (votes_ne_active_key _ _ _).symm)]
    exact hact
  have hlist1A : votesGet (add_vote o s n ⟨.yay, a1, n⟩ a1).2 n w
      = [⟨.yay, a1, n⟩] := by
    rw [hlist1, hv]
    rfl
  have hdup2 : ((votesGet (add_vote o s n ⟨.yay, a1, n⟩ a1).2 n w).any
      fun y => voteEq y (⟨.yay, a2, n⟩ : Vote)) = false := by
    rw [hlist1A]
    simp [voteEq, haddr]
  have hsum2 : oracleSum o w
      (voter_delegates (add_vote o s n ⟨.yay, a1, n⟩ a1).2 a2 w)
      = some P2 := by
    rw [hd2A, oracleSum_eq_raw h6b]
    exact hp2
  obtain ⟨r2ok, hlist2, hsto2, hpres2⟩ :=
    add_vote_ok_char (v := ⟨.yay, a2, n⟩) hn2A hact2
      (by rw [hd2A]; exact hne2) hdup2 hsum2 hsto1A hP1lt
  refine ⟨r1ok, r2ok, ?_⟩
  have hsto2A : get_storage
      (add_vote o (add_vote o s n ⟨.yay, a1, n⟩ a1).2 n ⟨.yay, a2, n⟩ a2).2
      n .yay w = .ok (P1 + P2) := by
    have : (P1 + P2) % 2 ^ 128 = P1 + P2 := Nat.mod_eq_of_lt hlt
    rw [← this]
    exact hsto2
  have hvl : votesGet
      (add_vote o (add_vote o s n ⟨.yay, a1, n⟩ a1).2 n ⟨.yay, a2, n⟩ a2).2
      n w = [⟨.yay, a1, n⟩, ⟨.yay, a2, n⟩] := by
    rw [hlist2, hlist1A]
    rfl
  have hnn2 : get_storage
      (add_vote o (add_vote o s n ⟨.yay, a1, n⟩ a1).2 n ⟨.yay, a2, n⟩ a2).2
      n .nay w = .ok cN := by
    rw [get_storage_congr (hpres2 _
      (storage_ne_storage_key_same_ntw .nay .yay w n n (by decide))
      (storage_ne_votes_key .nay w w n n)),
      get_storage_congr (hpres1 _
      (storage_ne_storage_key_same_ntw .nay .yay w n n (by decide))
      (storage_ne_votes_key .nay w w n n))]
    exact hnn
  have haa2 : get_storage
      (add_vote o (add_vote o s n ⟨.yay, a1, n⟩ a1).2 n ⟨.yay, a2, n⟩ a2).2
      n .abstain w = .ok cA := by
    rw [get_storage_congr (hpres2 _
      (storage_ne_storage_key_same_ntw .abstain .yay w n n (by decide))
      (storage_ne_votes_key .abstain w w n n)),
      get_storage_congr (hpres1 _
      (storage_ne_storage_key_same_ntw .abstain .yay w n n (by decide))
      (storage_ne_votes_key .abstain w w n n))]
    exact haa
  unfold vote_results
  rw [hvl, hsto2A, hnn2, haa2]
  rfl

/-- Claim C4 (amended) witness: the same two-voter scenario with
provider ids 8 and 7 (no 6024 bonus): yay power is exactly
100 + 50. -/
theorem C4_amended_witness :
    (add_vote oC4w sC4w 2 ⟨.yay, 11, 2⟩ 11).1 = .ok () ∧
    (add_vote oC4w (add_vote oC4w sC4w 2 ⟨.yay, 11, 2⟩ 11).2 2
      ⟨.yay, 12, 2⟩ 12).1 = .ok () ∧
    vote_results (add_vote oC4w (add_vote oC4w sC4w 2 ⟨.yay, 11, 2⟩ 11).2 2
      ⟨.yay, 12, 2⟩ 12).2 2 .testnet = .ok ⟨2, 0, 0, 100 + 50, 0, 0⟩ :=
  C4_amended oC4w sC4w 2 .testnet 11 12 [8] [7] 100 50 0 0
    (by decide) (by decide) (by decide) (by decide) (by decide) (by decide)
    (by decide) (by decide) (by decide) (by decide) (by decide) (by decide)
    (by decide) (by decide) (by decide) (by decide) (by decide) (by decide)

/-- Claim C5: if the oracle fails on one of the authorized provider
ids during `add_vote`, the call returns the oracle error, the
per-choice storage totals already added for the earlier ids in the
loop remain persisted (no rollback), and the vote is not appended to
the proposal's vote list. -/
theorem C5_partial_failure (o : Oracle) (s : Store) (n : Nat) (v : Vote)
    (a : Addr) (w : Network) (pre rest : List Nat) (bad : Nat) (S t0 : Nat)
    (hn : networkGet s a = .ok w)
    (hact : n ∈ activeListRaw s w)
    (hd : voter_delegates s a w = pre ++ bad :: rest)
    (hdup : ((votesGet s n w).any fun y => voteEq y v) = false)
    (hpre : oracleSum o w pre = some S)
    (hbad : o bad w = none)
    (ht0 : get_storage s n v.choice w = .ok t0) (hlt : t0 < 2 ^ 128) :
    (add_vote o s n v a).1 = .error .oracleFailed ∧
    get_storage (add_vote o s n v a).2 n v.choice w
      = .ok ((t0 + S) % 2 ^ 128) ∧
    votesGet (add_vote o s n v a).2 n w = votesGet s n w := by
  have hbadA : adjOracle o w bad = none := by
    simp [adjOracle, hbad]
  have hchar := addStorageLoop_err_char (c := v.choice) (f := n)
    rest s hpre hbadA ht0 hlt
  have hdne : (voter_delegates s a w).isEmpty = false := by
    rw [hd]
    cases pre <;> rfl
  unfold add_vote
  rw [hn]
  dsimp only
  rw [if_neg (fun hc => hc hact)]
  simp only [hdne, Bool.false_eq_true, if_false, hdup]
  rw [hd]
  cases hloop : addStorageLoop o w v.choice n s (pre ++ bad :: rest) with
  | mk r s1 =>
    rw [hloop] at hchar
    obtain ⟨hr, hst⟩ := hchar
    dsimp only at hr hst
    subst hr
    refine ⟨rfl, hst, ?_⟩
    have := addStorageLoop_other_key o w v.choice n (pre ++ bad :: rest) s
      (storage_ne_votes_key v.choice w w n n).symm
    rw [hloop] at this
    exact votesGet_congr this

/-- Claim C5 witness: voter 5 controls providers 3 and 4; the oracle
answers 10 for id 3 and fails for id 4: the vote errors, the yay
total keeps the partial 10, and no vote is stored. -/
theorem C5_witness :
    (add_vote oC5 sC5 1 vC5 5).1 = .error .oracleFailed ∧
    get_storage (add_vote oC5 sC5 1 vC5 5).2 1 vC5.choice .testnet
      = .ok ((0 + 10) % 2 ^ 128) ∧
    votesGet (add_vote oC5 sC5 1 vC5 5).2 1 .testnet
      = votesGet sC5 1 .testnet :=
  C5_partial_failure oC5 sC5 1 vC5 5 .testnet [3] [] 4 10 0
    (by decide) (by decide) (by decide) (by decide) (by decide) (by decide)
    (by decide) (by decide)

/-- Claim C6: once a proposal is concluded — out of the ActiveIndex,
in the ConcludedIndex, timestamp record still present — no sequence
of public operations brings it back: the concluded shape persists,
`vote_status` never again answers InProgress, `add_vote` targeting
it (a voter whose reverse lookup resolves to its network) always
fails with the vote-not-active error, and `start_vote` cannot
re-activate it because the timestamp record still exists. -/
theorem C6_lifecycle_monotonic (s s1 : Store) (f : Nat) (w : Network)
    (h : ConcludedState s f w)
    (hsteps : Relation.ReflTransGen StepRel s s1) :
    ConcludedState s1 f w ∧
    (∀ now vlen r, (vote_status now s1 f vlen w).1 ≠ .ok (.inProgress r)) ∧
    (∀ o v a, networkGet s1 a = .ok w →
      (add_vote o s1 f v a).1 = .error .voteNotActive) ∧
    (∀ boot now a, (start_vote boot now s1 f a w).1 ≠ .ok ()) := by
  have hcs := steps_preserve_concludedState h hsteps
  refine ⟨hcs, ?_, ?_, ?_⟩
  · intro now vlen r
    exact vote_status_never_inProgress_of_notActive hcs.1 r
  · intro o v a hn
    exact congrArg Prod.fst (add_vote_notActive_char hn hcs.1)
  · intro boot now a
    exact start_vote_fst_ne_ok_of_isSome hcs.2.2

/-- Claim C6 witness: a concluded proposal 7 on Testnet. -/
theorem C6_witness :
    (vote_status 100 sC6 7 60 .testnet).1 ≠ .ok (.inProgress 3) :=
  (C6_lifecycle_monotonic sC6 sC6 7 .testnet
    ⟨by decide, by decide, by decide⟩
    Relation.ReflTransGen.refl).2.1 100 60 3

/-- Claim C7: in every store reachable from the empty store by the
public operations, each proposal number is in at most one of the
ActiveIndex and the ConcludedIndex of a network. -/
theorem C7_active_concluded_exclusive (s : Store) (h : Reachable s)
    (w : Network) (f : Nat) :
    ¬(f ∈ activeListRaw s w ∧ f ∈ concludedList s w) :=
  (reachable_inv h).2 w f

/-- Claim C7 witness: the invariant after one started vote. -/
theorem C7_witness :
    ¬(2 ∈ activeListRaw (applyOp (.opStartVote [5] 0 1 5 .testnet) emptyStore)
        .testnet ∧
      2 ∈ concludedList (applyOp (.opStartVote [5] 0 1 5 .testnet) emptyStore)
        .testnet) :=
  C7_active_concluded_exclusive _
    (Reachable.step (.opStartVote [5] 0 1 5 .testnet) Reachable.init)
    .testnet 2

/-- Claim C8: voter registration is last-writer-wins — registering
twice leaves exactly the second provider-id set; unregistering makes
`is_registered` false; and in any store, `is_registered` is true
exactly when the forward registration key holds a non-empty
provider-id set. -/
theorem C8_registration (s : Store) (a : Addr) (w : Network)
    (S1 S2 : List Nat) :
    voter_delegates (register_voter (register_voter s a w S1) a w S2) a w
      = S2 ∧
    is_registered (unregister_voter s a w) a w = false ∧
    (is_registered s a w = true ↔
      ∃ l, s (LookupKey.voter w a).to_bytes = some (.fips l) ∧ l ≠ []) := by
  refine ⟨?_, ?_, ?_⟩
  · simp [register_voter, voter_delegates, setK_self]
  · simp [unregister_voter, is_registered, delK_self]
  · unfold is_registered
    cases hk : s (LookupKey.voter w a).to_bytes with
    | none => simp
    | some val =>
      cases val with
      | fips l =>
        simp only [Bool.not_eq_true', Option.some.injEq, Val.fips.injEq]
        constructor
        · intro hne
          exact ⟨l, rfl, fun he => by simp [he] at hne⟩
        · rintro ⟨l1, hl1, hne⟩
          cases l with
          | nil => exact absurd hl1.symm hne
          | cons x t => rfl
      | num t => simp
      | votes l => simp
      | raw b => simp
      | ntw n1 => simp

/-- Claim C9: during vote admission, `add_storage` credits provider
6024 with the oracle power plus a hard-coded 10240000, while every
other provider id is credited exactly the oracle power. -/
theorem C9_provider_6024_bonus (o : Oracle) (s : Store) (w : Network)
    (c : VoteOption) (f : Nat) (t0 sp v : Nat)
    (ht0 : get_storage s f c w = .ok t0)
    (hv : o sp w = some v)
    (hbound : t0 + v + 10240000 < 2 ^ 128) :
    (sp = 6024 → ∃ s1, add_storage o s sp w c f = .ok s1 ∧
      get_storage s1 f c w = .ok (t0 + v + 10240000)) ∧
    (sp ≠ 6024 → ∃ s1, add_storage o s sp w c f = .ok s1 ∧
      get_storage s1 f c w = .ok (t0 + v)) := by
  constructor
  · intro h6
    refine ⟨setK s (LookupKey.storage c w f).to_bytes
      (.raw (natToBeBytes 16 ((t0 + (v + 10240000)) % 2 ^ 128))), ?_, ?_⟩
    · unfold add_storage
      rw [ht0, hv]
      dsimp only
      rw [if_pos h6]
    · rw [get_storage_setK]
      exact congrArg Except.ok (by omega)
  · intro h6
    refine ⟨setK s (LookupKey.storage c w f).to_bytes
      (.raw (natToBeBytes 16 ((t0 + v) % 2 ^ 128))), ?_, ?_⟩
    · unfold add_storage
      rw [ht0, hv]
      dsimp only
      rw [if_neg h6]
    · rw [get_storage_setK]
      exact congrArg Except.ok (by omega)

/-- Claim C9 witness: provider 6024 gets 100 + 10240000, provider 77
gets exactly 100. -/
theorem C9_witness :
    (∃ s1, add_storage oC9 emptyStore 6024 .testnet .yay 5 = .ok s1 ∧
      get_storage s1 5 .yay .testnet = .ok (0 + 100 + 10240000)) ∧
    (∃ s1, add_storage oC9 emptyStore 77 .testnet .yay 5 = .ok s1 ∧
      get_storage s1 5 .yay .testnet = .ok (0 + 100)) :=
  ⟨(C9_provider_6024_bonus oC9 emptyStore .testnet .yay 5 0 6024 100
      (by decide) (by decide) (by decide)).1 rfl,
   (C9_provider_6024_bonus oC9 emptyStore .testnet .yay 5 0 77 100
      (by decide) (by decide) (by decide)).2 (by decide)⟩

/-- Claim C10: `add_vote` never compares the vote's embedded fip with
its fip-number argument: a vote whose embedded fip is m ≠ n is
appended to proposal n's vote list, and because duplicate detection
compares embedded `(address, fip)` pairs it does not collide with a
stored vote by the same address whose embedded fip is n — so one
address ends up with two stored votes in the same proposal's list. -/
theorem C10_no_fip_crosscheck (o : Oracle) (s : Store) (n m : Nat)
    (a : Addr) (w : Network) (v1 v2 : Vote) (S t0 : Nat)
    (hne : m ≠ n)
    (hv1a : v1.address = a) (hv1f : v1.fip = n)
    (hv2a : v2.address = a) (hv2f : v2.fip = m)
    (hn : networkGet s a = .ok w)
    (hact : n ∈ activeListRaw s w)
    (hd : voter_delegates s a w ≠ [])
    (hmem : v1 ∈ votesGet s n w)
    (hfips : ∀ y ∈ votesGet s n w, y.fip = n)
    (hsum : oracleSum o w (voter_delegates s a w) = some S)
    (ht0 : get_storage s n v2.choice w = .ok t0) (hlt : t0 < 2 ^ 128) :
    (add_vote o s n v2 a).1 = .ok () ∧
    votesGet (add_vote o s n v2 a).2 n w = votesGet s n w ++ [v2] ∧
    2 ≤ ((votesGet (add_vote o s n v2 a).2 n w).filter
      (fun y => y.address == a)).length := by
  have hdup : ((votesGet s n w).any fun y => voteEq y v2) = false := by
    rw [List.any_eq_false]
    intro y hy
    have hyf : y.fip = n := hfips y hy
    simp [voteEq, hv2f, hyf]
    intro _
    omega
  obtain ⟨hok, hlist, -, -⟩ := add_vote_ok_char hn hact hd hdup hsum ht0 hlt
  refine ⟨hok, hlist, ?_⟩
  rw [hlist, List.filter_append, List.length_append]
  have h1 : 0 < ((votesGet s n w).filter (fun y => y.address == a)).length := by
    apply List.length_pos_of_mem (a := v1)
    rw [List.mem_filter]
    exact ⟨hmem, by simp [hv1a]⟩
  have h2 : ([v2].filter (fun y => y.address == a)).length = 1 := by
    simp [hv2a]
  omega

/-- Claim C10 witness: a stored Yay vote by address 9 on fip 1; the
same address then casts a vote whose embedded fip is 5 via
`add_vote` with argument 1: it is admitted, leaving two votes by
address 9 in proposal 1's list. -/
theorem C10_witness :
    (add_vote oC10 sC10 1 vC10 9).1 = .ok () ∧
    votesGet (add_vote oC10 sC10 1 vC10 9).2 1 .testnet
      = votesGet sC10 1 .testnet ++ [vC10] ∧
    2 ≤ ((votesGet (add_vote oC10 sC10 1 vC10 9).2 1 .testnet).filter
      (fun y => y.address == 9)).length :=
  C10_no_fip_crosscheck oC10 sC10 1 5 9 .testnet ⟨.yay, 9, 1⟩ vC10 10 0
    (by decide) (by decide) (by decide) (by decide) (by decide) (by decide)
    (by decide) (by decide) (by decide) (by decide) (by decide) (by decide)
    (by decide)

end DSPVote

